import Mathlib

/-! The L7 load-balancer pool (`pkg/loadbalancers/l7s.go`).

A shallow embedding of `L7s.Get`, `L7s.Sync`, `L7s.Delete`, `L7s.GC` and
`L7s.Shutdown`.

Go values are embedded as follows.

* A `*L7` is an address (`Addr`) into a heap of `L7` records, so that the
  in-place assignments of `Sync` and of the pointer-receiver methods
  `edgeHop` and `Cleanup` are seen through every reference to the entity.
* The snapshot store maps a name to the address it holds.
* `edgeHop` and `Cleanup` (file `l7.go`), the naming function
  `Namer.LoadBalancer` and `RecorderProducer.Recorder` are collaborators and
  are taken as parameters.  The two methods act on the entity they are called
  on and on the cloud behind it, whose state is the type parameter `W`.
* Every call of `edgeHop`, `Cleanup`, `snapshotter.Add` and
  `snapshotter.Delete` is appended to a chronological trace.
* A run-time fault (index out of range) is the outcome `panicked`; the
  collaborators are taken to return.
* Logging through `glog` has no effect on the pool and is left out.
-/

namespace Loadbalancers

/-- Address of a heap-allocated `L7`, the value of a non-nil `*L7`. -/
abbrev Addr := Nat

/-- A non-nil Go `error`, represented by its message. -/
abbrev GoError := String

/-- Identity of an opaque collaborator (an interface value or a pointer whose
methods are not called by the pool itself). -/
abbrev Handle := Nat

/-- An ingress object; `Sync` reads only its namespace. -/
structure Ingress where
  Namespace : String
deriving DecidableEq, Repr

/-- The list of ingresses of a runtime info; `Sync` reads `Items[0]`. -/
structure IngressList where
  Items : List Ingress
deriving DecidableEq, Repr

/-- The descriptor `L7RuntimeInfo`.  `Sync` reads `Name` and `IngressList`;
the fields it never looks at (TLS, URL map, ...) are the opaque `Rest`.
Equality of two values is what `reflect.DeepEqual` decides. -/
structure L7RuntimeInfo where
  Name : String
  IngressList : IngressList
  Rest : Nat
deriving DecidableEq, Repr

/-- The object `*utils.Namer`; the pool calls its method `LoadBalancer`. -/
structure Namer where
  LoadBalancer : String → String

/-- The object `events.RecorderProducer`; the pool calls its method `Recorder`. -/
structure RecorderProducer where
  Recorder : String → Handle

/-- The entity `L7`: the six fields set by the composite literal in `Sync`,
and `Rest` for the fields the literal leaves at their zero value (the GCE
resources the entity learns about in `edgeHop`). -/
structure L7 where
  runtimeInfo : L7RuntimeInfo
  Name : String
  cloud : Handle
  namer : Namer
  mcrt : Handle
  recorder : Handle
  Rest : Nat

/-- The struct `L7s` without its field `snapshotter`: the collaborators, which
no method of the pool assigns.  The content of the snapshotter is part of
`State`. -/
structure L7s where
  cloud : Handle
  namer : Namer
  mcrt : Handle
  recorderProducer : RecorderProducer

/-- Calls recorded in the trace, with the error each method returned. -/
inductive Event where
  | edgeHop (lb : Addr) (err : Option GoError)
  | Cleanup (lb : Addr) (err : Option GoError)
  | snapshotterAdd (name : String) (lb : Addr)
  | snapshotterDelete (name : String)
deriving DecidableEq, Repr

/-- Modelled from the spec: the Snapshot Store (package `storage`, not among
the sources), a keyed container mapping a resource name to its tracked
entity. -/
abbrev Snapshotter := String → Option Addr

namespace Snapshotter

/-- Modelled from the spec: `Add(name, entity)` of the Snapshot Store, which
inserts or replaces the entity under `name`; no error, last write wins. -/
def Add (st : Snapshotter) (name : String) (lb : Addr) : Snapshotter :=
  Function.update st name (some lb)

/-- Modelled from the spec: `Get(name)` of the Snapshot Store, a non-mutating
lookup returning the entity and whether it was found. -/
def Get (st : Snapshotter) (name : String) : Option Addr :=
  st name

/-- Modelled from the spec: `Delete(name)` of the Snapshot Store, which
removes the entry if present and does nothing if it is absent. -/
def Delete (st : Snapshotter) (name : String) : Snapshotter :=
  Function.update st name none

/-- Modelled from the spec: `Snapshot()` of the Snapshot Store, an independent
copy of all current entries. -/
def Snapshot (st : Snapshotter) : Snapshotter :=
  st

end Snapshotter

/-- What a pointer-receiver method of `L7` leaves behind: the cloud, the
fields of the entity, and the returned error. -/
structure Effect (W : Type) where
  gce : W
  lb : L7
  err : Option GoError

/-- The methods `(*L7).edgeHop` and `(*L7).Cleanup` of `l7.go`, as functions
of the cloud state and the entity they are called on. -/
structure L7Methods (W : Type) where
  edgeHop : W → L7 → Effect W
  Cleanup : W → L7 → Effect W

/-- The mutable state a pool method runs in. -/
structure State (W : Type) where
  /-- content of `l.snapshotter` -/
  snapshotter : Snapshotter
  /-- the `L7` objects, by address -/
  heap : Addr → L7
  /-- the address the next allocation returns -/
  next : Addr
  /-- state of the cloud behind `l.cloud` -/
  gce : W
  /-- the calls made so far, oldest first -/
  trace : List Event

/-- How a call of `Sync` ends: it returns an `error` (possibly nil), or a
run-time fault unwinds it. -/
inductive Outcome where
  | returned (err : Option GoError)
  | panicked
deriving DecidableEq, Repr

variable {W : Type}

/-- The call `l.snapshotter.Add(name, lb)`. -/
def State.Add (s : State W) (name : String) (lb : Addr) : State W :=
  { s with
    snapshotter := s.snapshotter.Add name lb
    trace := s.trace ++ [Event.snapshotterAdd name lb] }

/-- The call `l.snapshotter.Delete(name)`. -/
def State.Delete (s : State W) (name : String) : State W :=
  { s with
    snapshotter := s.snapshotter.Delete name
    trace := s.trace ++ [Event.snapshotterDelete name] }

/-- The call `lb.edgeHop()` on the entity at address `lb`. -/
def State.edgeHop (m : L7Methods W) (s : State W) (lb : Addr) :
    State W × Option GoError :=
  let r := m.edgeHop s.gce (s.heap lb)
  ({ s with
     gce := r.gce
     heap := Function.update s.heap lb r.lb
     trace := s.trace ++ [Event.edgeHop lb r.err] }, r.err)

/-- The call `lb.Cleanup()` on the entity at address `lb`. -/
def State.Cleanup (m : L7Methods W) (s : State W) (lb : Addr) :
    State W × Option GoError :=
  let r := m.Cleanup s.gce (s.heap lb)
  ({ s with
     gce := r.gce
     heap := Function.update s.heap lb r.lb
     trace := s.trace ++ [Event.Cleanup lb r.err] }, r.err)

/-- `func (l *L7s) Get(name string) (*L7, error)`: the error case stands for
the pair `(nil, err)`, the other for `(lb, nil)`. -/
def Get (l : L7s) (name : String) (s : State W) : Except GoError Addr :=
  let name := l.namer.LoadBalancer name
  match s.snapshotter.Get name with
  | none => Except.error ("loadbalancer " ++ name ++ " not in pool")
  | some lb => Except.ok lb

/-- `func (l *L7s) Sync(ri *L7RuntimeInfo) error`.  The deferred
`l.snapshotter.Add(name, lb)` runs when the function returns, after
`lb.edgeHop()`.  The index `Items[0]` is evaluated while the composite literal
is built, before the `defer` statement is reached. -/
def Sync (m : L7Methods W) (l : L7s) (ri : L7RuntimeInfo) (s : State W) :
    State W × Outcome :=
  let name := l.namer.LoadBalancer ri.Name
  match Get l name s with
  | Except.error _ =>
    match ri.IngressList.Items with
    | [] => (s, Outcome.panicked)
    | item :: _ =>
      let lb := s.next
      let s1 : State W :=
        { s with
          next := s.next + 1
          heap := Function.update s.heap lb
            { runtimeInfo := ri
              Name := l.namer.LoadBalancer ri.Name
              cloud := l.cloud
              namer := l.namer
              mcrt := l.mcrt
              recorder := l.recorderProducer.Recorder item.Namespace
              Rest := 0 } }
      let (s2, err) := s1.edgeHop m lb
      (s2.Add name lb, Outcome.returned err)
  | Except.ok lb =>
    let s1 : State W :=
      if (s.heap lb).runtimeInfo ≠ ri then
        { s with heap := Function.update s.heap lb { s.heap lb with runtimeInfo := ri } }
      else s
    let (s2, err) := s1.edgeHop m lb
    (s2.Add name lb, Outcome.returned err)

/-- `func (l *L7s) Delete(name string) error`. -/
def Delete (m : L7Methods W) (l : L7s) (name : String) (s : State W) :
    State W × Option GoError :=
  let name := l.namer.LoadBalancer name
  match Get l name s with
  | Except.error err => (s, some err)
  | Except.ok lb =>
    match s.Cleanup m lb with
    | (s1, some err) => (s1, some err)
    | (s1, none) => (s1.Delete name, none)

/-- The loop `for name := range pool` of `GC`, over the keys still to visit. -/
def GC.loop (m : L7Methods W) (l : L7s) (knownLoadBalancers : String → Bool) :
    List String → State W → State W × Option GoError
  | [], s => (s, none)
  | name :: rest, s =>
    if knownLoadBalancers name then GC.loop m l knownLoadBalancers rest s
    else
      match Delete m l name s with
      | (s1, some err) => (s1, some err)
      | (s1, none) => GC.loop m l knownLoadBalancers rest s1

/-- `func (l *L7s) GC(names []string) error`.  Go leaves the order in which
`range` visits the keys of the snapshot unspecified: `order` is the order of
this run, a list of the keys of `l.snapshotter.Snapshot()`. -/
def GC (m : L7Methods W) (l : L7s) (names : List String) (order : List String)
    (s : State W) : State W × Option GoError :=
  let knownLoadBalancers : String → Bool :=
    fun name => decide (name ∈ names.map l.namer.LoadBalancer)
  GC.loop m l knownLoadBalancers order s

/-- `func (l *L7s) Shutdown() error`. -/
def Shutdown (m : L7Methods W) (l : L7s) (order : List String) (s : State W) :
    State W × Option GoError :=
  match GC m l [] order s with
  | (s1, some err) => (s1, some err)
  | (s1, none) => (s1, none)

/-- The pool of `NewLoadBalancerPool`: an empty store and nothing allocated.
The heap holds no entity yet; `lb0` is what unallocated addresses read as. -/
def NewLoadBalancerPool (lb0 : L7) (gce : W) : State W :=
  { snapshotter := fun _ => none
    heap := fun _ => lb0
    next := 0
    gce := gce
    trace := [] }

/-- The events a run from `s` to `s1` appended to the trace. -/
def newEvents (s s1 : State W) : List Event :=
  s1.trace.drop s.trace.length

/-- Number of calls of `edgeHop` among the events `t`. -/
def edgeHopCalls (t : List Event) : Nat :=
  t.countP fun ev =>
    match ev with
    | Event.edgeHop _ _ => true
    | _ => false

/-- A controller calling `Sync` once per descriptor, in order; a fault in one
call ends the run (`none`). -/
def SyncAll (m : L7Methods W) (l : L7s) : List L7RuntimeInfo → State W → Option (State W)
  | [], s => some s
  | ri :: ris, s =>
    match Sync m l ri s with
    | (_, Outcome.panicked) => none
    | (s1, Outcome.returned _) => SyncAll m l ris s1

/-- Every call of the run `SyncAll` is made on a descriptor that has an ingress
or whose name the lookup of `Sync` finds in the store as it is at that call. -/
def SyncAll.ready (m : L7Methods W) (l : L7s) : List L7RuntimeInfo → State W → Prop
  | [], _ => True
  | ri :: ris, s =>
    (ri.IngressList.Items ≠ [] ∨
      s.snapshotter (l.namer.LoadBalancer (l.namer.LoadBalancer ri.Name)) ≠ none) ∧
    SyncAll.ready m l ris (Sync m l ri s).1

/-! ## Concrete collaborators, descriptors and pools used in the examples -/

/-- A naming function that replaces the slash of the key `ns/a`; applying it
twice is the same as applying it once. -/
def scrubNamer : Namer :=
  ⟨fun key => if key = "ns/a" then "ns-a" else key⟩

/-- A naming function that appends the cluster suffix unconditionally, so that
a canonical name is not a fixed point. -/
def suffixNamer : Namer :=
  ⟨fun key => key ++ "--uid"⟩

/-- A pool over `scrubNamer`. -/
def scrubPool : L7s :=
  { cloud := 1, namer := scrubNamer, mcrt := 2, recorderProducer := ⟨fun ns => ns.length⟩ }

/-- A pool over `suffixNamer`. -/
def suffixPool : L7s :=
  { cloud := 1, namer := suffixNamer, mcrt := 2, recorderProducer := ⟨fun ns => ns.length⟩ }

/-- Methods that succeed, count their calls in the cloud state and leave the
entity as it is. -/
def okMethods : L7Methods Nat :=
  { edgeHop := fun w lb => ⟨w + 1, lb, none⟩
    Cleanup := fun w lb => ⟨w + 1, lb, none⟩ }

/-- Methods that fail and leave the entity as it is. -/
def failMethods : L7Methods Nat :=
  { edgeHop := fun w lb => ⟨w + 1, lb, some "quota exceeded"⟩
    Cleanup := fun w lb => ⟨w + 1, lb, some "resource in use"⟩ }

/-- A descriptor for `ns/a` with one ingress. -/
def riA : L7RuntimeInfo :=
  { Name := "ns/a", IngressList := ⟨[⟨"ns"⟩]⟩, Rest := 1 }

/-- The same name with another configuration. -/
def riA2 : L7RuntimeInfo :=
  { Name := "ns/a", IngressList := ⟨[⟨"ns"⟩]⟩, Rest := 2 }

/-- A descriptor for `ns/a` whose ingress list is empty. -/
def riNoIngress : L7RuntimeInfo :=
  { Name := "ns/a", IngressList := ⟨[]⟩, Rest := 1 }

/-- What the unallocated addresses of the example pools read as. -/
def zeroL7 : L7 :=
  { runtimeInfo := ⟨"", ⟨[]⟩, 0⟩, Name := "", cloud := 0, namer := scrubNamer,
    mcrt := 0, recorder := 0, Rest := 0 }

/-- The empty pool. -/
def emptyState : State Nat :=
  NewLoadBalancerPool zeroL7 0

/-- A pool tracking `ns-a` with descriptor `riA`, entity at address 0. -/
def trackedState : State Nat :=
  { snapshotter := fun key => if key = "ns-a" then some 0 else none
    heap := fun _ =>
      { runtimeInfo := riA, Name := "ns-a", cloud := 1, namer := scrubNamer,
        mcrt := 2, recorder := 2, Rest := 0 }
    next := 1
    gce := 1
    trace := [] }

/-- A pool over `suffixNamer` tracking the canonical name of `ns/a`, entity at
address 0. -/
def suffixState : State Nat :=
  { snapshotter := fun key => if key = "ns/a--uid" then some 0 else none
    heap := fun _ =>
      { runtimeInfo := riA, Name := "ns/a--uid", cloud := 1, namer := suffixNamer,
        mcrt := 2, recorder := 2, Rest := 0 }
    next := 1
    gce := 1
    trace := [] }

/-- A pool over `suffixNamer` with an entry under the twice-suffixed name only. -/
def suffixTwiceState : State Nat :=
  { suffixState with snapshotter := fun key => if key = "ns/a--uid--uid" then some 0 else none }

/-- A pool over `scrubNamer` tracking `ns-a` (entity at address 0) and `ns-b`
(entity at address 1). -/
def twoTrackedState : State Nat :=
  { snapshotter := fun key =>
      if key = "ns-a" then some 0 else if key = "ns-b" then some 1 else none
    heap := fun lb =>
      if lb = 0 then
        { runtimeInfo := riA, Name := "ns-a", cloud := 1, namer := scrubNamer,
          mcrt := 2, recorder := 2, Rest := 0 }
      else
        { runtimeInfo := ⟨"ns-b", ⟨[⟨"ns"⟩]⟩, 1⟩, Name := "ns-b", cloud := 1,
          namer := scrubNamer, mcrt := 2, recorder := 2, Rest := 0 }
    next := 2
    gce := 2
    trace := [] }

/-- A descriptor whose name already carries the suffix of `suffixNamer` twice. -/
def riSuffixed : L7RuntimeInfo :=
  { Name := "ns/a--uid--uid", IngressList := ⟨[⟨"ns"⟩]⟩, Rest := 1 }

/-- The pool over `suffixNamer` after `Sync(riA)` and `Sync(riSuffixed)` on the
empty pool: it tracks `ns/a--uid` (address 0) and `ns/a--uid--uid--uid`
(address 1). -/
def suffixSynced : State Nat :=
  (Sync okMethods suffixPool riSuffixed (Sync okMethods suffixPool riA emptyState).1).1

/-- A naming function that maps `ns/a` and `ns-a` to each other; applying it
twice gives the key back, not its canonical form. -/
def swapNamer : Namer :=
  ⟨fun key => if key = "ns/a" then "ns-a" else if key = "ns-a" then "ns/a" else key⟩

/-- A pool over `swapNamer`. -/
def swapPool : L7s :=
  { cloud := 1, namer := swapNamer, mcrt := 2, recorderProducer := ⟨fun ns => ns.length⟩ }

/-- A descriptor named `ns-a`. -/
def riDash : L7RuntimeInfo :=
  { Name := "ns-a", IngressList := ⟨[⟨"ns"⟩]⟩, Rest := 1 }

/-- The pool over `swapNamer` after `Sync(riDash)` on the empty pool: it
tracks `ns/a` (address 0). -/
def swapSynced : State Nat :=
  (Sync okMethods swapPool riDash emptyState).1

/-! ## The iteration order of `range`, and runs of the pool -/

/-- The orders in which `for name := range pool` can visit the map `pool`:
every key of the map, once. -/
def RangeOrder (order : List String) (pool : Snapshotter) : Prop :=
  order.Nodup ∧ ∀ key, key ∈ order ↔ pool key ≠ none

/-- A call of one of the methods of the pool that change it; `GC` and
`Shutdown` come with the order in which their `range` visits the snapshot. -/
inductive Call where
  | Sync (ri : L7RuntimeInfo)
  | Delete (name : String)
  | GC (names : List String) (order : List String)
  | Shutdown (order : List String)

/-- The state a call leaves behind, whether it returns an error or not; a
`Sync` that faults leaves the state as it was. -/
def Call.apply (m : L7Methods W) (l : L7s) (s : State W) : Call → State W
  | Call.Sync ri => (Loadbalancers.Sync m l ri s).1
  | Call.Delete name => (Loadbalancers.Delete m l name s).1
  | Call.GC names order => (Loadbalancers.GC m l names order s).1
  | Call.Shutdown order => (Loadbalancers.Shutdown m l order s).1

/-- The state after a sequence of calls, first call first. -/
def runCalls (m : L7Methods W) (l : L7s) (calls : List Call) (s : State W) : State W :=
  calls.foldl (Call.apply m l) s

/-- The invariant of the pool: every key of the store is its own canonical
form, the entity stored under a key has that key as its `Name`, and every
stored address has been allocated. -/
def PoolInv (l : L7s) (s : State W) : Prop :=
  ∀ key lb, s.snapshotter key = some lb →
    l.namer.LoadBalancer key = key ∧ (s.heap lb).Name = key ∧ lb < s.next

/-- The part of the invariant that concerns the store alone: every key is its
own canonical form, every stored address has been allocated, and no address is
stored under two keys. -/
def KeyInv (l : L7s) (s : State W) : Prop :=
  (∀ key lb, s.snapshotter key = some lb →
    l.namer.LoadBalancer key = key ∧ lb < s.next) ∧
  ∀ key1 key2 lb, s.snapshotter key1 = some lb → s.snapshotter key2 = some lb → key1 = key2

/-- Modelled from the spec: the operations `Converge` and `Cleanup` of a
Resource Entity (the methods `edgeHop` and `Cleanup` of `l7.go`, not among the
sources) converge and tear down the remote resources of the entity; its `name`
is its canonical identifier, and of its fields only `desiredState` is replaced
during its lifetime. Neither method assigns the field `Name`. -/
def KeepsName (m : L7Methods W) : Prop :=
  (∀ w lb, (m.edgeHop w lb).lb.Name = lb.Name) ∧ (∀ w lb, (m.Cleanup w lb).lb.Name = lb.Name)

/-! ## Helper lemmas -/

theorem newEvents_of_trace (s s1 : State W) (evs : List Event)
    (h : s1.trace = s.trace ++ evs) : newEvents s s1 = evs := by
  simp [newEvents, h]

/-- The state in which `Sync` calls `edgeHop` on an entity it found at `lb`. -/
theorem Sync_of_found (m : L7Methods W) (l : L7s) (ri : L7RuntimeInfo) (s : State W)
    (lb : Addr)
    (h : s.snapshotter (l.namer.LoadBalancer (l.namer.LoadBalancer ri.Name)) = some lb) :
    ∃ s1 : State W, s1.snapshotter = s.snapshotter ∧ s1.trace = s.trace ∧ s1.gce = s.gce ∧
      s1.next = s.next ∧
      s1.heap = Function.update s.heap lb { s.heap lb with runtimeInfo := ri } ∧
      Sync m l ri s =
        ((s1.edgeHop m lb).1.Add (l.namer.LoadBalancer ri.Name) lb,
          Outcome.returned (s1.edgeHop m lb).2) := by
  by_cases hri : (s.heap lb).runtimeInfo = ri
  · refine ⟨s, rfl, rfl, rfl, rfl, ?_, ?_⟩
    · rw [← hri]; simp
    · simp only [Sync, Get, Snapshotter.Get, h, hri, ne_eq, not_true_eq_false, if_false]
  · refine ⟨{ s with heap := Function.update s.heap lb { s.heap lb with runtimeInfo := ri } },
      rfl, rfl, rfl, rfl, rfl, ?_⟩
    simp only [Sync, Get, Snapshotter.Get, h, hri, ne_eq, not_false_eq_true, if_true]

/-- The state in which `Sync` calls `edgeHop` on an entity it created. -/
theorem Sync_of_absent (m : L7Methods W) (l : L7s) (ri : L7RuntimeInfo) (s : State W)
    (item : Ingress) (items : List Ingress)
    (h : s.snapshotter (l.namer.LoadBalancer (l.namer.LoadBalancer ri.Name)) = none)
    (hi : ri.IngressList.Items = item :: items) :
    ∃ s1 : State W, s1.snapshotter = s.snapshotter ∧ s1.trace = s.trace ∧ s1.gce = s.gce ∧
      s1.next = s.next + 1 ∧
      s1.heap = Function.update s.heap s.next
        { runtimeInfo := ri
          Name := l.namer.LoadBalancer ri.Name
          cloud := l.cloud
          namer := l.namer
          mcrt := l.mcrt
          recorder := l.recorderProducer.Recorder item.Namespace
          Rest := 0 } ∧
      Sync m l ri s =
        ((s1.edgeHop m s.next).1.Add (l.namer.LoadBalancer ri.Name) s.next,
          Outcome.returned (s1.edgeHop m s.next).2) := by
  refine ⟨{ s with
      next := s.next + 1
      heap := Function.update s.heap s.next
        { runtimeInfo := ri
          Name := l.namer.LoadBalancer ri.Name
          cloud := l.cloud
          namer := l.namer
          mcrt := l.mcrt
          recorder := l.recorderProducer.Recorder item.Namespace
          Rest := 0 } }, rfl, rfl, rfl, rfl, rfl, ?_⟩
  simp only [Sync, Get, Snapshotter.Get, h, hi]

/-- With an empty ingress list and nothing found, `Sync` faults before it does
anything. -/
theorem Sync_of_absent_nil (m : L7Methods W) (l : L7s) (ri : L7RuntimeInfo) (s : State W)
    (h : s.snapshotter (l.namer.LoadBalancer (l.namer.LoadBalancer ri.Name)) = none)
    (hi : ri.IngressList.Items = []) :
    Sync m l ri s = (s, Outcome.panicked) := by
  simp only [Sync, Get, Snapshotter.Get, h, hi]

/-- Every run of `Sync` that does not fault is one call of `edgeHop` on an
entity whose runtime info is the descriptor, followed by the deferred `Add`. -/
theorem Sync_run (m : L7Methods W) (l : L7s) (ri : L7RuntimeInfo) (s : State W)
    (h : ri.IngressList.Items ≠ [] ∨
      s.snapshotter (l.namer.LoadBalancer (l.namer.LoadBalancer ri.Name)) ≠ none) :
    ∃ (lb : Addr) (s1 : State W), s1.snapshotter = s.snapshotter ∧ s1.trace = s.trace ∧
      s1.gce = s.gce ∧ (s1.heap lb).runtimeInfo = ri ∧
      Sync m l ri s =
        ((s1.edgeHop m lb).1.Add (l.namer.LoadBalancer ri.Name) lb,
          Outcome.returned (s1.edgeHop m lb).2) := by
  cases hs : s.snapshotter (l.namer.LoadBalancer (l.namer.LoadBalancer ri.Name)) with
  | some lb =>
    obtain ⟨s1, h1, h2, h3, _, h5, h6⟩ := Sync_of_found m l ri s lb hs
    exact ⟨lb, s1, h1, h2, h3, by simp [h5], h6⟩
  | none =>
    cases hi : ri.IngressList.Items with
    | nil => rcases h with h | h
             · exact absurd hi h
             · exact absurd hs h
    | cons item items =>
      obtain ⟨s1, h1, h2, h3, _, h5, h6⟩ := Sync_of_absent m l ri s item items hs hi
      exact ⟨s.next, s1, h1, h2, h3, by simp [h5], h6⟩

/-- If `Sync` returns, it did not fault. -/
theorem Sync_returned_pre (m : L7Methods W) (l : L7s) (ri : L7RuntimeInfo) (s : State W)
    (err : Option GoError) (h : (Sync m l ri s).2 = Outcome.returned err) :
    ri.IngressList.Items ≠ [] ∨
      s.snapshotter (l.namer.LoadBalancer (l.namer.LoadBalancer ri.Name)) ≠ none := by
  by_contra hc
  push_neg at hc
  rw [Sync_of_absent_nil m l ri s hc.2 hc.1] at h
  cases h

/-! ## Sync -/

/-- C1: for every naming function, pool state and descriptor `d`, if `Sync(d)`
returns no error then `Get(d.Name)` afterwards returns no error and an entity
whose runtime info equals `d`, provided `edgeHop` does not rewrite the runtime
info of the entity it is called on. -/
theorem Sync_ok_then_Get (m : L7Methods W) (l : L7s) (d : L7RuntimeInfo) (s : State W)
    (hm : ∀ w lb, (m.edgeHop w lb).lb.runtimeInfo = lb.runtimeInfo)
    (h : (Sync m l d s).2 = Outcome.returned none) :
    ∃ lb, Get l d.Name (Sync m l d s).1 = Except.ok lb ∧
      ((Sync m l d s).1.heap lb).runtimeInfo = d := by
  obtain ⟨lb, s1, _, _, _, h4, h5⟩ := Sync_run m l d s (Sync_returned_pre m l d s none h)
  refine ⟨lb, ?_, ?_⟩
  · rw [h5]
    simp [Get, Snapshotter.Get, State.Add, Snapshotter.Add]
  · rw [h5]
    simp [State.Add, State.edgeHop, hm, h4]

/-- Witness of C1: a first `Sync` on the empty pool. -/
theorem Sync_ok_then_Get_witness :
    (Sync okMethods scrubPool riA emptyState).2 = Outcome.returned none ∧
    ∃ lb, Get scrubPool riA.Name (Sync okMethods scrubPool riA emptyState).1 = Except.ok lb ∧
      ((Sync okMethods scrubPool riA emptyState).1.heap lb).runtimeInfo = riA :=
  ⟨by decide,
   Sync_ok_then_Get okMethods scrubPool riA emptyState (fun _ _ => rfl) (by decide)⟩

/-- C2: for every pool state and descriptor `d` with a non-empty ingress list
whose canonical name is not tracked, if `edgeHop` returns an error during
`Sync(d)`, then `Sync` returns that error, and afterwards the store holds the
entity `edgeHop` was called on under the canonical name of `d.Name`, so that
`Get(d.Name)` succeeds. -/
theorem Sync_edgeHop_error_tracked (m : L7Methods W) (l : L7s) (d : L7RuntimeInfo)
    (s : State W) (lb : Addr) (e : GoError)
    (hne : d.IngressList.Items ≠ [])
    (_hun : s.snapshotter (l.namer.LoadBalancer d.Name) = none)
    (herr : Event.edgeHop lb (some e) ∈ newEvents s (Sync m l d s).1) :
    (Sync m l d s).2 = Outcome.returned (some e) ∧
      (Sync m l d s).1.snapshotter (l.namer.LoadBalancer d.Name) = some lb ∧
      Get l d.Name (Sync m l d s).1 = Except.ok lb := by
  obtain ⟨lb1, s1, _, h2, _, _, h5⟩ := Sync_run m l d s (Or.inl hne)
  have ht : (Sync m l d s).1.trace = s.trace ++
      [Event.edgeHop lb1 (s1.edgeHop m lb1).2,
        Event.snapshotterAdd (l.namer.LoadBalancer d.Name) lb1] := by
    rw [h5]; simp [State.Add, State.edgeHop, h2]
  rw [newEvents_of_trace s _ _ ht] at herr
  simp only [List.mem_cons, Event.edgeHop.injEq, List.mem_singleton, reduceCtorEq,
    List.not_mem_nil, or_false] at herr
  obtain ⟨hlb, he⟩ := herr
  subst hlb
  rw [h5]
  refine ⟨by simp [he], ?_, ?_⟩
  · simp [State.Add, Snapshotter.Add]
  · simp [Get, Snapshotter.Get, State.Add, Snapshotter.Add]

/-- Witness of C2: a failing first `Sync` on the empty pool. -/
theorem Sync_edgeHop_error_tracked_witness :
    (Sync failMethods scrubPool riA emptyState).2 = Outcome.returned (some "quota exceeded") ∧
      (Sync failMethods scrubPool riA emptyState).1.snapshotter
        (scrubPool.namer.LoadBalancer riA.Name) = some 0 ∧
      Get scrubPool riA.Name (Sync failMethods scrubPool riA emptyState).1 = Except.ok 0 :=
  Sync_edgeHop_error_tracked failMethods scrubPool riA emptyState 0 "quota exceeded"
    (by decide) (by decide) (by decide)

/-- Counterexample to C3: on the empty pool `edgeHop` is the first event of
`Sync`; no `Add` under the canonical name comes before it and the store has no
entry under that name when it is called. -/
theorem Sync_edgeHop_before_Add :
    ¬ (∀ (pre post : List Event) (lb : Addr) (err : Option GoError),
        newEvents emptyState (Sync okMethods scrubPool riA emptyState).1 =
          pre ++ Event.edgeHop lb err :: post →
        (∃ lb1, Event.snapshotterAdd (scrubPool.namer.LoadBalancer riA.Name) lb1 ∈ pre) ∨
          emptyState.snapshotter (scrubPool.namer.LoadBalancer riA.Name) ≠ none) := by
  intro h
  have h1 := h [] [Event.snapshotterAdd "ns-a" 0] 0 none (by decide)
  revert h1
  simp
  decide

/-- C3, amended: in every execution of `Sync(d)` that does not fault (`d` has
an ingress, or its name is found), `edgeHop` is called first, on a store that
is as it was before the call, and the entity is inserted into the store, under
the canonical name of `d.Name`, after `edgeHop` has returned and whatever it
returned; these are the only two calls. -/
theorem Sync_Add_after_edgeHop (m : L7Methods W) (l : L7s) (d : L7RuntimeInfo) (s : State W)
    (h : d.IngressList.Items ≠ [] ∨
      s.snapshotter (l.namer.LoadBalancer (l.namer.LoadBalancer d.Name)) ≠ none) :
    ∃ (lb : Addr) (err : Option GoError),
      newEvents s (Sync m l d s).1 =
        [Event.edgeHop lb err, Event.snapshotterAdd (l.namer.LoadBalancer d.Name) lb] ∧
      (Sync m l d s).1.snapshotter = s.snapshotter.Add (l.namer.LoadBalancer d.Name) lb := by
  obtain ⟨lb, s1, h1, h2, _, _, h5⟩ := Sync_run m l d s h
  refine ⟨lb, (s1.edgeHop m lb).2, ?_, ?_⟩
  · apply newEvents_of_trace
    rw [h5]; simp [State.Add, State.edgeHop, h2]
  · rw [h5]; simp [State.Add, State.edgeHop, h1]

/-- Witness of C3, amended: a first `Sync` on the empty pool. -/
theorem Sync_Add_after_edgeHop_witness :
    ∃ (lb : Addr) (err : Option GoError),
      newEvents emptyState (Sync okMethods scrubPool riA emptyState).1 =
        [Event.edgeHop lb err, Event.snapshotterAdd (scrubPool.namer.LoadBalancer riA.Name) lb] ∧
      (Sync okMethods scrubPool riA emptyState).1.snapshotter =
        emptyState.snapshotter.Add (scrubPool.namer.LoadBalancer riA.Name) lb :=
  Sync_Add_after_edgeHop okMethods scrubPool riA emptyState (Or.inl (by decide))

/-- Counterexample to C4: for a descriptor without ingress whose name is not
tracked, `Sync` faults: it returns nothing and `edgeHop` is not called. -/
theorem Sync_no_ingress_faults :
    ¬ (∃ (lb : Addr) (err : Option GoError),
        (Sync okMethods scrubPool riNoIngress emptyState).2 = Outcome.returned err ∧
        (newEvents emptyState (Sync okMethods scrubPool riNoIngress emptyState).1).filter
          (fun ev => ev matches Event.edgeHop _ _) = [Event.edgeHop lb err]) := by
  rintro ⟨lb, err, h1, _⟩
  have hp : (Sync okMethods scrubPool riNoIngress emptyState).2 = Outcome.panicked := by
    decide
  rw [hp] at h1
  cases h1

/-- C4, amended: for every pool state and descriptor `d` that has an ingress or
whose name is found, `Sync(d)` returns, and what it returns is the result of
its one call of `edgeHop`: the same error when `edgeHop` fails and no error
when it succeeds. -/
theorem Sync_returns_edgeHop_result (m : L7Methods W) (l : L7s) (d : L7RuntimeInfo)
    (s : State W)
    (h : d.IngressList.Items ≠ [] ∨
      s.snapshotter (l.namer.LoadBalancer (l.namer.LoadBalancer d.Name)) ≠ none) :
    ∃ (lb : Addr) (err : Option GoError),
      (Sync m l d s).2 = Outcome.returned err ∧
      (newEvents s (Sync m l d s).1).filter (fun ev => ev matches Event.edgeHop _ _) =
        [Event.edgeHop lb err] := by
  obtain ⟨lb, s1, _, h2, _, _, h5⟩ := Sync_run m l d s h
  refine ⟨lb, (s1.edgeHop m lb).2, by rw [h5], ?_⟩
  have ht : (Sync m l d s).1.trace = s.trace ++
      [Event.edgeHop lb (s1.edgeHop m lb).2,
        Event.snapshotterAdd (l.namer.LoadBalancer d.Name) lb] := by
    rw [h5]; simp [State.Add, State.edgeHop, h2]
  rw [newEvents_of_trace s _ _ ht]
  simp [List.filter]

/-- Witness of C4, amended: a failing `Sync` returns the error of `edgeHop`. -/
theorem Sync_returns_edgeHop_result_witness :
    ∃ (lb : Addr) (err : Option GoError),
      (Sync failMethods scrubPool riA emptyState).2 = Outcome.returned err ∧
      (newEvents emptyState (Sync failMethods scrubPool riA emptyState).1).filter
        (fun ev => ev matches Event.edgeHop _ _) = [Event.edgeHop lb err] :=
  Sync_returns_edgeHop_result failMethods scrubPool riA emptyState (Or.inl (by decide))

/-- `Sync` removes no entry of the store. -/
theorem Sync_keeps_entries (m : L7Methods W) (l : L7s) (ri : L7RuntimeInfo) (s : State W)
    (key : String) (h : s.snapshotter key ≠ none) :
    (Sync m l ri s).1.snapshotter key ≠ none := by
  by_cases hp : ri.IngressList.Items ≠ [] ∨
      s.snapshotter (l.namer.LoadBalancer (l.namer.LoadBalancer ri.Name)) ≠ none
  · obtain ⟨lb, s1, h1, _, _, _, h5⟩ := Sync_run m l ri s hp
    rw [h5]
    by_cases hk : key = l.namer.LoadBalancer ri.Name
    · simp [State.Add, Snapshotter.Add, hk]
    · simp [State.Add, Snapshotter.Add, State.edgeHop, hk, h1, h]
  · push_neg at hp
    rw [Sync_of_absent_nil m l ri s hp.2 hp.1]
    exact h

/-- A run of `SyncAll` whose calls are each made on a descriptor that has an
ingress or a name found at that call completes, with one `edgeHop` event for
each descriptor. -/
theorem SyncAll_trace (m : L7Methods W) (l : L7s) (ds : List L7RuntimeInfo) :
    ∀ s : State W, SyncAll.ready m l ds s →
      ∃ (s1 : State W) (evs : List Event), SyncAll m l ds s = some s1 ∧
        s1.trace = s.trace ++ evs ∧ edgeHopCalls evs = ds.length := by
  induction ds with
  | nil => intro s _; exact ⟨s, [], rfl, by simp, rfl⟩
  | cons d ds ih =>
    intro s h
    obtain ⟨hd, hrest⟩ := h
    obtain ⟨lb, s1, _, h2, _, _, h5⟩ := Sync_run m l d s hd
    obtain ⟨s2, evs, e1, e2, e3⟩ := ih (Sync m l d s).1 hrest
    refine ⟨s2, [Event.edgeHop lb (s1.edgeHop m lb).2,
      Event.snapshotterAdd (l.namer.LoadBalancer d.Name) lb] ++ evs, ?_, ?_, ?_⟩
    · rw [← e1]
      simp only [SyncAll]
      rw [h5]
    · rw [e2, h5]
      simp [State.Add, State.edgeHop, h2]
    · simp [edgeHopCalls, List.countP_cons] at e3 ⊢
      omega

/-- Counterexample to C5: `Sync` of a descriptor without ingress whose name is
not tracked does not call `edgeHop`. -/
theorem Sync_no_ingress_no_edgeHop :
    ¬ (edgeHopCalls
        (newEvents emptyState (Sync okMethods scrubPool riNoIngress emptyState).1) = 1) := by
  decide

/-- C5, amended: one call of `Sync` on a descriptor that has an ingress or
whose name is found in the store calls `edgeHop` exactly once, whether the
name is untracked, tracked with an equal descriptor or tracked with a
different one; hence a sequence of `Sync` calls, each made on a descriptor
that has an ingress or whose name is found in the store at the time of the
call, runs to its end with exactly as many calls of `edgeHop` as calls of
`Sync`. -/
theorem SyncAll_edgeHop_once_each (m : L7Methods W) (l : L7s) (ds : List L7RuntimeInfo)
    (s : State W) (h : SyncAll.ready m l ds s) :
    (∀ (d : L7RuntimeInfo) (s0 : State W),
      d.IngressList.Items ≠ [] ∨
        s0.snapshotter (l.namer.LoadBalancer (l.namer.LoadBalancer d.Name)) ≠ none →
      edgeHopCalls (newEvents s0 (Sync m l d s0).1) = 1) ∧
      ∃ s1 : State W, SyncAll m l ds s = some s1 ∧
        edgeHopCalls (newEvents s s1) = ds.length := by
  constructor
  · intro d s0 hd
    obtain ⟨lb, s1, _, h2, _, _, h5⟩ := Sync_run m l d s0 hd
    have ht : (Sync m l d s0).1.trace = s0.trace ++
        [Event.edgeHop lb (s1.edgeHop m lb).2,
          Event.snapshotterAdd (l.namer.LoadBalancer d.Name) lb] := by
      rw [h5]; simp [State.Add, State.edgeHop, h2]
    rw [newEvents_of_trace s0 _ _ ht]
    simp [edgeHopCalls, List.countP_cons]
  · obtain ⟨s1, evs, h1, h2, h3⟩ := SyncAll_trace m l ds s h
    exact ⟨s1, h1, by rw [newEvents_of_trace s s1 evs h2]; exact h3⟩

/-- Witness of C5, amended: an untracked name, then the same name with an
empty ingress list, found by then, then a different descriptor, are three
calls of `edgeHop`. -/
theorem SyncAll_edgeHop_once_each_witness :
    SyncAll.ready okMethods scrubPool [riA, riNoIngress, riA2] emptyState ∧
    (∀ (d : L7RuntimeInfo) (s0 : State Nat),
      d.IngressList.Items ≠ [] ∨
        s0.snapshotter (scrubPool.namer.LoadBalancer (scrubPool.namer.LoadBalancer d.Name)) ≠
          none →
      edgeHopCalls (newEvents s0 (Sync okMethods scrubPool d s0).1) = 1) ∧
      ∃ s1 : State Nat,
        SyncAll okMethods scrubPool [riA, riNoIngress, riA2] emptyState = some s1 ∧
        edgeHopCalls (newEvents emptyState s1) = [riA, riNoIngress, riA2].length :=
  ⟨⟨Or.inl (by decide), Or.inr (by decide), Or.inl (by decide), trivial⟩,
   SyncAll_edgeHop_once_each okMethods scrubPool [riA, riNoIngress, riA2] emptyState
    ⟨Or.inl (by decide), Or.inr (by decide), Or.inl (by decide), trivial⟩⟩

/-- C6: with an idempotent naming function and an `edgeHop` that leaves the
entity as it is, `Sync(d)` for a tracked canonical name leaves the store as it
was (same keys, same entity under each), changes no other entity, and leaves
the tracked entity equal to the old one with its runtime info set to `d`, so
that `Name`, `cloud`, `namer`, `mcrt` and `recorder` are unchanged; when the
old runtime info equals `d` nothing in the pool changes. -/
theorem Sync_tracked_frame (m : L7Methods W) (l : L7s) (d : L7RuntimeInfo) (s : State W)
    (lb : Addr)
    (hid : ∀ key, l.namer.LoadBalancer (l.namer.LoadBalancer key) = l.namer.LoadBalancer key)
    (hm : ∀ w lb1, (m.edgeHop w lb1).lb = lb1)
    (ht : s.snapshotter (l.namer.LoadBalancer d.Name) = some lb) :
    (Sync m l d s).1.snapshotter = s.snapshotter ∧
      (∀ lb1, lb1 ≠ lb → (Sync m l d s).1.heap lb1 = s.heap lb1) ∧
      (Sync m l d s).1.heap lb = { s.heap lb with runtimeInfo := d } ∧
      (Sync m l d s).1.next = s.next ∧
      ((s.heap lb).runtimeInfo = d → (Sync m l d s).1.heap = s.heap) := by
  obtain ⟨s1, h1, _, _, h4, h5, h6⟩ := Sync_of_found m l d s lb (by rw [hid]; exact ht)
  have hst : (Sync m l d s).1.snapshotter = s.snapshotter := by
    rw [h6]
    funext key
    by_cases hk : key = l.namer.LoadBalancer d.Name
    · simp [State.Add, Snapshotter.Add, hk, ht]
    · simp [State.Add, Snapshotter.Add, State.edgeHop, hk, h1]
  have hheap : (Sync m l d s).1.heap =
      Function.update s.heap lb { s.heap lb with runtimeInfo := d } := by
    rw [h6]
    simp [State.Add, State.edgeHop, hm, h5]
  refine ⟨hst, ?_, ?_, ?_, ?_⟩
  · intro lb1 hne
    rw [hheap]; simp [Function.update, hne]
  · rw [hheap]; simp
  · rw [h6]; simp [State.Add, State.edgeHop, h4]
  · intro heq
    rw [hheap, ← heq]
    simp

/-- Witness of C6: a tracked name synced with a changed descriptor. -/
theorem Sync_tracked_frame_witness :
    (Sync okMethods scrubPool riA2 trackedState).1.snapshotter = trackedState.snapshotter ∧
      (∀ lb1, lb1 ≠ 0 → (Sync okMethods scrubPool riA2 trackedState).1.heap lb1 =
        trackedState.heap lb1) ∧
      (Sync okMethods scrubPool riA2 trackedState).1.heap 0 =
        { trackedState.heap 0 with runtimeInfo := riA2 } ∧
      (Sync okMethods scrubPool riA2 trackedState).1.next = trackedState.next ∧
      ((trackedState.heap 0).runtimeInfo = riA2 →
        (Sync okMethods scrubPool riA2 trackedState).1.heap = trackedState.heap) :=
  Sync_tracked_frame okMethods scrubPool riA2 trackedState 0
    (by intro key; simp only [scrubPool, scrubNamer]; split_ifs <;> simp_all)
    (fun _ _ => rfl) (by decide)

/-- Counterexample to C7: over a naming function that is not idempotent, `Sync`
looks up the twice-canonicalised name, finds nothing although the store has an
entry under the canonical name, creates a new entity and stores it over the
old one. -/
theorem Sync_lookup_not_canonical :
    ¬ (∀ lb, suffixState.snapshotter (suffixPool.namer.LoadBalancer riA.Name) = some lb →
        (Sync okMethods suffixPool riA suffixState).1.snapshotter
          (suffixPool.namer.LoadBalancer riA.Name) = some lb ∧
        (Sync okMethods suffixPool riA suffixState).1.next = suffixState.next) := by
  intro h
  have h1 := (h 0 (by decide)).2
  revert h1
  decide

/-- C7, amended: when the naming function maps the canonical name of `d.Name`
to itself (as every idempotent one does) and `d` has an ingress or its name is
tracked, `Sync(d)` looks up the key it later stores under, the canonical name
of `d.Name`: if the store has no entry there it allocates a new entity and
stores it there, otherwise it allocates nothing and stores the entity it found
there again. -/
theorem Sync_lookup_key (m : L7Methods W) (l : L7s) (d : L7RuntimeInfo) (s : State W)
    (hid : l.namer.LoadBalancer (l.namer.LoadBalancer d.Name) = l.namer.LoadBalancer d.Name)
    (h : d.IngressList.Items ≠ [] ∨ s.snapshotter (l.namer.LoadBalancer d.Name) ≠ none) :
    (s.snapshotter (l.namer.LoadBalancer d.Name) = none →
      (Sync m l d s).1.snapshotter (l.namer.LoadBalancer d.Name) = some s.next ∧
      (Sync m l d s).1.next = s.next + 1 ∧
      ∃ err, newEvents s (Sync m l d s).1 =
        [Event.edgeHop s.next err,
          Event.snapshotterAdd (l.namer.LoadBalancer d.Name) s.next]) ∧
    (∀ lb, s.snapshotter (l.namer.LoadBalancer d.Name) = some lb →
      (Sync m l d s).1.snapshotter (l.namer.LoadBalancer d.Name) = some lb ∧
      (Sync m l d s).1.next = s.next ∧
      ∃ err, newEvents s (Sync m l d s).1 =
        [Event.edgeHop lb err, Event.snapshotterAdd (l.namer.LoadBalancer d.Name) lb]) := by
  constructor
  · intro hs
    cases hi : d.IngressList.Items with
    | nil =>
      rcases h with h | h
      · exact absurd hi h
      · exact absurd hs h
    | cons item items =>
      obtain ⟨s1, _, h2, _, h4, _, h6⟩ :=
        Sync_of_absent m l d s item items (by rw [hid]; exact hs) hi
      rw [h6]
      refine ⟨by simp [State.Add, Snapshotter.Add], by simp [State.Add, State.edgeHop, h4],
        (s1.edgeHop m s.next).2, ?_⟩
      apply newEvents_of_trace
      simp [State.Add, State.edgeHop, h2]
  · intro lb hs
    obtain ⟨s1, _, h2, _, h4, _, h6⟩ := Sync_of_found m l d s lb (by rw [hid]; exact hs)
    rw [h6]
    refine ⟨by simp [State.Add, Snapshotter.Add], by simp [State.Add, State.edgeHop, h4],
      (s1.edgeHop m lb).2, ?_⟩
    apply newEvents_of_trace
    simp [State.Add, State.edgeHop, h2]

/-- Witness of C7, amended: a tracked name, over an idempotent naming function. -/
theorem Sync_lookup_key_witness :
    (Sync okMethods scrubPool riA trackedState).1.snapshotter
        (scrubPool.namer.LoadBalancer riA.Name) = some 0 ∧
      (Sync okMethods scrubPool riA trackedState).1.next = trackedState.next ∧
      ∃ err, newEvents trackedState (Sync okMethods scrubPool riA trackedState).1 =
        [Event.edgeHop 0 err,
          Event.snapshotterAdd (scrubPool.namer.LoadBalancer riA.Name) 0] :=
  (Sync_lookup_key okMethods scrubPool riA trackedState (by decide) (Or.inl (by decide))).2 0
    (by decide)

/-! ## Delete -/

/-- Counterexample to C8: over a naming function that is not idempotent,
`Delete` of a name whose canonical form has no entry finds the entry under the
twice-canonicalised name, calls `Cleanup` on it and returns no error. -/
theorem Delete_lookup_not_canonical :
    ¬ (suffixTwiceState.snapshotter (suffixPool.namer.LoadBalancer "ns/a") = none →
        (∃ e, (Delete okMethods suffixPool "ns/a" suffixTwiceState).2 = some e) ∧
        (∀ lb err, Event.Cleanup lb err ∉
          newEvents suffixTwiceState (Delete okMethods suffixPool "ns/a" suffixTwiceState).1) ∧
        (Delete okMethods suffixPool "ns/a" suffixTwiceState).1.snapshotter =
          suffixTwiceState.snapshotter) := by
  intro h
  have h1 := (h (by decide)).2.1 0 none
  revert h1
  decide

/-- C8, amended: when the naming function maps the canonical form of `name` to
itself (as every idempotent one does) and the store has no entry under that
canonical form, `Delete(name)` returns the not-in-pool error of `Get` and
changes nothing: the store is as it was and no call is made, so `Cleanup` is
called on no entity. -/
theorem Delete_untracked (m : L7Methods W) (l : L7s) (name : String) (s : State W)
    (hid : l.namer.LoadBalancer (l.namer.LoadBalancer name) = l.namer.LoadBalancer name)
    (hun : s.snapshotter (l.namer.LoadBalancer name) = none) :
    Delete m l name s =
      (s, some ("loadbalancer " ++ l.namer.LoadBalancer name ++ " not in pool")) := by
  simp [Delete, Get, Snapshotter.Get, hid, hun]

/-- Witness of C8, amended: `Delete` on the empty pool. -/
theorem Delete_untracked_witness :
    Delete okMethods scrubPool "ns/a" emptyState =
      (emptyState, some ("loadbalancer " ++ scrubPool.namer.LoadBalancer "ns/a" ++
        " not in pool")) :=
  Delete_untracked okMethods scrubPool "ns/a" emptyState (by decide) (by decide)

/-- C9: for every pool state and name, if the lookup of `Delete(name)` finds an
entity and `Cleanup` of that entity returns an error, then `Delete` returns the
same error, its only call was that `Cleanup`, and the store is as it was before
the call, the entity still tracked. -/
theorem Delete_Cleanup_error (m : L7Methods W) (l : L7s) (name : String) (s : State W)
    (lb : Addr) (e : GoError)
    (hget : Get l (l.namer.LoadBalancer name) s = Except.ok lb)
    (hc : (m.Cleanup s.gce (s.heap lb)).err = some e) :
    (Delete m l name s).2 = some e ∧
      (Delete m l name s).1.snapshotter = s.snapshotter ∧
      Get l (l.namer.LoadBalancer name) (Delete m l name s).1 = Except.ok lb ∧
      newEvents s (Delete m l name s).1 = [Event.Cleanup lb (some e)] := by
  have hd : Delete m l name s = ((s.Cleanup m lb).1, some e) := by
    simp only [Delete, hget]
    have h2 : (s.Cleanup m lb).2 = some e := by simp [State.Cleanup, hc]
    revert h2
    cases hcl : s.Cleanup m lb with
    | mk s1 err => intro h2; simp at h2; subst h2; rfl
  rw [hd]
  refine ⟨rfl, by simp [State.Cleanup], ?_, ?_⟩
  · rw [← hget]; simp [Get, State.Cleanup]
  · apply newEvents_of_trace
    simp [State.Cleanup, hc]

/-- Witness of C9: a failing `Cleanup` of the tracked entity. -/
theorem Delete_Cleanup_error_witness :
    (Delete failMethods scrubPool "ns/a" trackedState).2 = some "resource in use" ∧
      (Delete failMethods scrubPool "ns/a" trackedState).1.snapshotter =
        trackedState.snapshotter ∧
      Get scrubPool (scrubPool.namer.LoadBalancer "ns/a")
        (Delete failMethods scrubPool "ns/a" trackedState).1 = Except.ok 0 ∧
      newEvents trackedState (Delete failMethods scrubPool "ns/a" trackedState).1 =
        [Event.Cleanup 0 (some "resource in use")] :=
  Delete_Cleanup_error failMethods scrubPool "ns/a" trackedState 0 "resource in use" rfl rfl

/-- C10: with an idempotent naming function, for every pool state and name
whose canonical form is tracked, if `Cleanup` of the tracked entity succeeds
then `Delete(name)` returns no error, calls `Cleanup` exactly once, on the
entity stored under the canonical name, then removes that entry; afterwards the
store has no entry under the canonical name, every other entry is unchanged
and so is every other entity. -/
theorem Delete_tracked (m : L7Methods W) (l : L7s) (name : String) (s : State W) (lb : Addr)
    (hid : ∀ key, l.namer.LoadBalancer (l.namer.LoadBalancer key) = l.namer.LoadBalancer key)
    (ht : s.snapshotter (l.namer.LoadBalancer name) = some lb)
    (hc : (m.Cleanup s.gce (s.heap lb)).err = none) :
    (Delete m l name s).2 = none ∧
      newEvents s (Delete m l name s).1 =
        [Event.Cleanup lb none, Event.snapshotterDelete (l.namer.LoadBalancer name)] ∧
      (Delete m l name s).1.snapshotter (l.namer.LoadBalancer name) = none ∧
      (∀ key, key ≠ l.namer.LoadBalancer name →
        (Delete m l name s).1.snapshotter key = s.snapshotter key) ∧
      (∀ lb1, lb1 ≠ lb → (Delete m l name s).1.heap lb1 = s.heap lb1) := by
  have hd : Delete m l name s = ((s.Cleanup m lb).1.Delete (l.namer.LoadBalancer name), none) := by
    simp only [Delete, Get, Snapshotter.Get, hid, ht]
    have h2 : (s.Cleanup m lb).2 = none := by simp [State.Cleanup, hc]
    revert h2
    cases hcl : s.Cleanup m lb with
    | mk s1 err => intro h2; simp at h2; subst h2; rfl
  rw [hd]
  refine ⟨rfl, ?_, by simp [State.Delete, Snapshotter.Delete], ?_, ?_⟩
  · apply newEvents_of_trace
    simp [State.Delete, State.Cleanup, hc]
  · intro key hk
    simp [State.Delete, Snapshotter.Delete, State.Cleanup, hk]
  · intro lb1 hne
    simp [State.Delete, State.Cleanup, hne]

/-- Witness of C10: deleting the tracked entity. -/
theorem Delete_tracked_witness :
    (Delete okMethods scrubPool "ns/a" trackedState).2 = none ∧
      newEvents trackedState (Delete okMethods scrubPool "ns/a" trackedState).1 =
        [Event.Cleanup 0 none,
          Event.snapshotterDelete (scrubPool.namer.LoadBalancer "ns/a")] ∧
      (Delete okMethods scrubPool "ns/a" trackedState).1.snapshotter
        (scrubPool.namer.LoadBalancer "ns/a") = none ∧
      (∀ key, key ≠ scrubPool.namer.LoadBalancer "ns/a" →
        (Delete okMethods scrubPool "ns/a" trackedState).1.snapshotter key =
          trackedState.snapshotter key) ∧
      (∀ lb1, lb1 ≠ 0 →
        (Delete okMethods scrubPool "ns/a" trackedState).1.heap lb1 = trackedState.heap lb1) :=
  Delete_tracked okMethods scrubPool "ns/a" trackedState 0
    (by intro key; simp only [scrubPool, scrubNamer]; split_ifs <;> simp_all)
    (by decide) (by decide)

/-! ## Helper lemmas for Delete and GC -/

/-- `Delete` when its lookup finds nothing. -/
theorem Delete_of_absent (m : L7Methods W) (l : L7s) (name : String) (s : State W)
    (h : s.snapshotter (l.namer.LoadBalancer (l.namer.LoadBalancer name)) = none) :
    Delete m l name s =
      (s, some ("loadbalancer " ++ l.namer.LoadBalancer (l.namer.LoadBalancer name) ++
        " not in pool")) := by
  simp [Delete, Get, Snapshotter.Get, h]

/-- `Delete` when `Cleanup` of the entity it finds fails. -/
theorem Delete_of_found_error (m : L7Methods W) (l : L7s) (name : String) (s : State W)
    (lb : Addr) (e : GoError)
    (h : s.snapshotter (l.namer.LoadBalancer (l.namer.LoadBalancer name)) = some lb)
    (hc : (m.Cleanup s.gce (s.heap lb)).err = some e) :
    Delete m l name s = ((s.Cleanup m lb).1, some e) := by
  simp only [Delete, Get, Snapshotter.Get, h]
  have h2 : (s.Cleanup m lb).2 = some e := by simp [State.Cleanup, hc]
  revert h2
  cases s.Cleanup m lb with
  | mk s1 err => intro h2; simp at h2; subst h2; rfl

/-- `Delete` when `Cleanup` of the entity it finds succeeds. -/
theorem Delete_of_found_ok (m : L7Methods W) (l : L7s) (name : String) (s : State W)
    (lb : Addr)
    (h : s.snapshotter (l.namer.LoadBalancer (l.namer.LoadBalancer name)) = some lb)
    (hc : (m.Cleanup s.gce (s.heap lb)).err = none) :
    Delete m l name s = ((s.Cleanup m lb).1.Delete (l.namer.LoadBalancer name), none) := by
  simp only [Delete, Get, Snapshotter.Get, h]
  have h2 : (s.Cleanup m lb).2 = none := by simp [State.Cleanup, hc]
  revert h2
  cases s.Cleanup m lb with
  | mk s1 err => intro h2; simp at h2; subst h2; rfl

/-- The three ways `Delete` of a key that is its own canonical form can go. -/
theorem Delete_canonical (m : L7Methods W) (l : L7s) (key : String) (s : State W)
    (hk : l.namer.LoadBalancer key = key) :
    (s.snapshotter key = none ∧
      Delete m l key s = (s, some ("loadbalancer " ++ key ++ " not in pool"))) ∨
    (∃ lb e, s.snapshotter key = some lb ∧ (m.Cleanup s.gce (s.heap lb)).err = some e ∧
      Delete m l key s = ((s.Cleanup m lb).1, some e)) ∨
    (∃ lb, s.snapshotter key = some lb ∧ (m.Cleanup s.gce (s.heap lb)).err = none ∧
      Delete m l key s = ((s.Cleanup m lb).1.Delete key, none)) := by
  cases hs : s.snapshotter key with
  | none =>
    left
    have h := Delete_of_absent m l key s (by rw [hk, hk]; exact hs)
    rw [hk, hk] at h
    exact ⟨rfl, h⟩
  | some lb =>
    right
    cases hc : (m.Cleanup s.gce (s.heap lb)).err with
    | some e =>
      left
      exact ⟨lb, e, rfl, hc, Delete_of_found_error m l key s lb e (by rw [hk, hk]; exact hs) hc⟩
    | none =>
      right
      have h := Delete_of_found_ok m l key s lb (by rw [hk, hk]; exact hs) hc
      rw [hk] at h
      exact ⟨lb, rfl, hc, h⟩

/-- `GC.loop` over keys that are all known visits them without a call. -/
theorem GC_loop_all_known (m : L7Methods W) (l : L7s) (known : String → Bool) :
    ∀ (order : List String) (s : State W), (∀ key ∈ order, known key = true) →
      GC.loop m l known order s = (s, none) := by
  intro order
  induction order with
  | nil => intro s _; rfl
  | cons key rest ih =>
    intro s h
    have hk := h key (List.mem_cons_self key rest)
    simp only [GC.loop, hk, if_true]
    exact ih s (fun k hkr => h k (List.mem_cons_of_mem key hkr))

/-- `GC.loop` over canonical keys changes the store only by removing orphans
it visits. -/
theorem GC_loop_store (m : L7Methods W) (l : L7s) (known : String → Bool) :
    ∀ (order : List String) (s : State W),
      (∀ key ∈ order, l.namer.LoadBalancer key = key) →
      ∀ key, (GC.loop m l known order s).1.snapshotter key = s.snapshotter key ∨
        ((GC.loop m l known order s).1.snapshotter key = none ∧ key ∈ order ∧
          known key = false) := by
  intro order
  induction order with
  | nil => intro s _ key; left; rfl
  | cons k rest ih =>
    intro s hc key
    have hrest : ∀ key ∈ rest, l.namer.LoadBalancer key = key :=
      fun k1 h1 => hc k1 (List.mem_cons_of_mem k h1)
    cases hkn : known k with
    | true =>
      simp only [GC.loop, hkn, if_true]
      rcases ih s hrest key with h | ⟨h1, h2, h3⟩
      · exact Or.inl h
      · exact Or.inr ⟨h1, List.mem_cons_of_mem k h2, h3⟩
    | false =>
      simp only [GC.loop, hkn, Bool.false_eq_true, if_false]
      rcases Delete_canonical m l k s (hc k (List.mem_cons_self k rest)) with
        ⟨_, hd⟩ | ⟨lb, e, _, _, hd⟩ | ⟨lb, _, _, hd⟩
      · rw [hd]; left; rfl
      · rw [hd]; left; simp [State.Cleanup]
      · rw [hd]
        simp only
        rcases ih ((s.Cleanup m lb).1.Delete k) hrest key with h | ⟨h1, h2, h3⟩
        · by_cases hkey : key = k
          · right
            refine ⟨?_, by rw [hkey]; exact List.mem_cons_self k rest, by rw [hkey]; exact hkn⟩
            rw [h, hkey]
            simp [State.Delete, Snapshotter.Delete]
          · left
            rw [h]
            simp [State.Delete, Snapshotter.Delete, State.Cleanup, hkey]
        · exact Or.inr ⟨h1, List.mem_cons_of_mem k h2, h3⟩

/-- A run of `GC.loop` over canonical keys that returns no error has removed
every orphan it visited, after a successful `Cleanup` of its entity. -/
theorem GC_loop_ok (m : L7Methods W) (l : L7s) (known : String → Bool) :
    ∀ (order : List String) (s : State W),
      (∀ key ∈ order, l.namer.LoadBalancer key = key) →
      (GC.loop m l known order s).2 = none →
      ∃ evs, (GC.loop m l known order s).1.trace = s.trace ++ evs ∧
        ∀ key ∈ order, known key = false →
          (GC.loop m l known order s).1.snapshotter key = none ∧
          ∀ lb, s.snapshotter key = some lb → Event.Cleanup lb none ∈ evs := by
  intro order
  induction order with
  | nil => intro s _ _; exact ⟨[], by simp [GC.loop], by simp⟩
  | cons k rest ih =>
    intro s hc hok
    have hrest : ∀ key ∈ rest, l.namer.LoadBalancer key = key :=
      fun k1 h1 => hc k1 (List.mem_cons_of_mem k h1)
    cases hkn : known k with
    | true =>
      simp only [GC.loop, hkn, if_true] at hok ⊢
      obtain ⟨evs, ht, hall⟩ := ih s hrest hok
      refine ⟨evs, ht, ?_⟩
      intro key hmem hkey
      rcases List.mem_cons.mp hmem with h | h
      · rw [h, hkn] at hkey; cases hkey
      · exact hall key h hkey
    | false =>
      simp only [GC.loop, hkn, Bool.false_eq_true, if_false] at hok ⊢
      rcases Delete_canonical m l k s (hc k (List.mem_cons_self k rest)) with
        ⟨_, hd⟩ | ⟨lb, e, _, _, hd⟩ | ⟨lb, hs, hcl, hd⟩
      · rw [hd] at hok; simp at hok
      · rw [hd] at hok; simp at hok
      · rw [hd] at hok ⊢
        simp only at hok ⊢
        obtain ⟨evs, ht, hall⟩ := ih ((s.Cleanup m lb).1.Delete k) hrest hok
        refine ⟨[Event.Cleanup lb none, Event.snapshotterDelete k] ++ evs, ?_, ?_⟩
        · rw [ht]; simp [State.Delete, State.Cleanup, hcl]
        · intro key hmem hkey
          by_cases hkk : key = k
          · subst hkk
            constructor
            · rcases GC_loop_store m l known rest ((s.Cleanup m lb).1.Delete key) hrest key
                with h | ⟨h, _, _⟩
              · rw [h]; simp [State.Delete, Snapshotter.Delete]
              · exact h
            · intro lb1 h1
              rw [hs] at h1
              cases h1
              simp
          · rcases List.mem_cons.mp hmem with h | h
            · exact absurd h hkk
            · obtain ⟨h1, h2⟩ := hall key h hkey
              refine ⟨h1, ?_⟩
              intro lb1 hlb1
              have := h2 lb1 (by simp [State.Delete, Snapshotter.Delete, State.Cleanup, hkk, hlb1])
              simp [this]

/-- Every call made by `GC.loop` over canonical keys is the `Cleanup` of the
entity stored under an orphan it visits, or the removal of such an orphan. -/
theorem GC_loop_events (m : L7Methods W) (l : L7s) (known : String → Bool) :
    ∀ (order : List String) (s : State W),
      (∀ key ∈ order, l.namer.LoadBalancer key = key) →
      ∃ evs, (GC.loop m l known order s).1.trace = s.trace ++ evs ∧
        ∀ ev ∈ evs, ∃ key ∈ order, known key = false ∧ ∃ lb, s.snapshotter key = some lb ∧
          (ev = Event.snapshotterDelete key ∨ ∃ err, ev = Event.Cleanup lb err) := by
  intro order
  induction order with
  | nil => intro s _; exact ⟨[], by simp [GC.loop], by simp⟩
  | cons k rest ih =>
    intro s hc
    have hrest : ∀ key ∈ rest, l.namer.LoadBalancer key = key :=
      fun k1 h1 => hc k1 (List.mem_cons_of_mem k h1)
    cases hkn : known k with
    | true =>
      simp only [GC.loop, hkn, if_true]
      obtain ⟨evs, ht, hall⟩ := ih s hrest
      refine ⟨evs, ht, ?_⟩
      intro ev hev
      obtain ⟨key, hmem, h1, h2⟩ := hall ev hev
      exact ⟨key, List.mem_cons_of_mem k hmem, h1, h2⟩
    | false =>
      simp only [GC.loop, hkn, Bool.false_eq_true, if_false]
      rcases Delete_canonical m l k s (hc k (List.mem_cons_self k rest)) with
        ⟨_, hd⟩ | ⟨lb, e, hs, hcl, hd⟩ | ⟨lb, hs, hcl, hd⟩
      · rw [hd]; exact ⟨[], by simp, by simp⟩
      · rw [hd]
        refine ⟨[Event.Cleanup lb (some e)], by simp [State.Cleanup, hcl], ?_⟩
        intro ev hev
        simp only [List.mem_singleton] at hev
        exact ⟨k, List.mem_cons_self k rest, hkn, lb, hs, Or.inr ⟨some e, hev⟩⟩
      · rw [hd]
        simp only
        obtain ⟨evs, ht, hall⟩ := ih ((s.Cleanup m lb).1.Delete k) hrest
        refine ⟨[Event.Cleanup lb none, Event.snapshotterDelete k] ++ evs, ?_, ?_⟩
        · rw [ht]; simp [State.Delete, State.Cleanup, hcl]
        · intro ev hev
          simp only [List.cons_append, List.nil_append, List.mem_cons] at hev
          rcases hev with hev | hev | hev
          · exact ⟨k, List.mem_cons_self k rest, hkn, lb, hs, Or.inr ⟨none, hev⟩⟩
          · exact ⟨k, List.mem_cons_self k rest, hkn, lb, hs, Or.inl hev⟩
          · obtain ⟨key, hmem, h1, lb1, h2, h3⟩ := hall ev hev
            refine ⟨key, List.mem_cons_of_mem k hmem, h1, lb1, ?_, h3⟩
            by_cases hkk : key = k
            · rw [hkk] at h2
              simp [State.Delete, Snapshotter.Delete] at h2
            · simpa [State.Delete, Snapshotter.Delete, State.Cleanup, hkk] using h2

/-- `GC.loop` over canonical keys writes to no entity other than those stored
under the orphans it visits. -/
theorem GC_loop_heap (m : L7Methods W) (l : L7s) (known : String → Bool) :
    ∀ (order : List String) (s : State W),
      (∀ key ∈ order, l.namer.LoadBalancer key = key) →
      ∀ lb, (∀ key ∈ order, known key = false → s.snapshotter key ≠ some lb) →
        (GC.loop m l known order s).1.heap lb = s.heap lb := by
  intro order
  induction order with
  | nil => intro s _ lb _; rfl
  | cons k rest ih =>
    intro s hc lb0 hlb
    have hrest : ∀ key ∈ rest, l.namer.LoadBalancer key = key :=
      fun k1 h1 => hc k1 (List.mem_cons_of_mem k h1)
    cases hkn : known k with
    | true =>
      simp only [GC.loop, hkn, if_true]
      exact ih s hrest lb0 (fun key hmem => hlb key (List.mem_cons_of_mem k hmem))
    | false =>
      simp only [GC.loop, hkn, Bool.false_eq_true, if_false]
      rcases Delete_canonical m l k s (hc k (List.mem_cons_self k rest)) with
        ⟨_, hd⟩ | ⟨lb, e, hs, _, hd⟩ | ⟨lb, hs, _, hd⟩
      · rw [hd]
      · rw [hd]
        have hne : lb0 ≠ lb := by
          intro h
          exact hlb k (List.mem_cons_self k rest) hkn (by rw [hs, h])
        simp [State.Cleanup, hne]
      · rw [hd]
        simp only
        have hne : lb0 ≠ lb := by
          intro h
          exact hlb k (List.mem_cons_self k rest) hkn (by rw [hs, h])
        rw [ih ((s.Cleanup m lb).1.Delete k) hrest lb0 ?_]
        · simp [State.Delete, State.Cleanup, hne]
        · intro key hmem hkey h
          by_cases hkk : key = k
          · rw [hkk] at h
            simp [State.Delete, Snapshotter.Delete] at h
          · exact hlb key (List.mem_cons_of_mem k hmem) hkey
              (by simpa [State.Delete, Snapshotter.Delete, State.Cleanup, hkk] using h)

/-- A run of `GC.loop` over distinct, canonical, tracked keys that returns an
error stopped at an orphan whose `Cleanup` returned that error: the orphans
before it are removed, every other entry is as it was, and the failing
`Cleanup` is the last call. -/
theorem GC_loop_error (m : L7Methods W) (l : L7s) (known : String → Bool) :
    ∀ (order : List String) (s : State W),
      (∀ key ∈ order, l.namer.LoadBalancer key = key) →
      order.Nodup →
      (∀ key ∈ order, s.snapshotter key ≠ none) →
      ∀ e, (GC.loop m l known order s).2 = some e →
      ∃ (pre : List String) (key : String) (post : List String) (lb : Addr)
        (evs : List Event),
        order = pre ++ key :: post ∧ known key = false ∧ s.snapshotter key = some lb ∧
        (∀ k, (GC.loop m l known order s).1.snapshotter k =
          if k ∈ pre ∧ known k = false then none else s.snapshotter k) ∧
        (GC.loop m l known order s).1.trace =
          s.trace ++ evs ++ [Event.Cleanup lb (some e)] ∧
        ∀ ev ∈ evs, ∃ k ∈ pre, known k = false ∧
          (ev = Event.snapshotterDelete k ∨
            ∃ lb1, s.snapshotter k = some lb1 ∧ ev = Event.Cleanup lb1 none) := by
  intro order
  induction order with
  | nil => intro s _ _ _ e h; simp [GC.loop] at h
  | cons k rest ih =>
    intro s hc hnd hpres e herr
    have hrest : ∀ key ∈ rest, l.namer.LoadBalancer key = key :=
      fun k1 h1 => hc k1 (List.mem_cons_of_mem k h1)
    have hnd1 : rest.Nodup := (List.nodup_cons.mp hnd).2
    have hnotin : k ∉ rest := (List.nodup_cons.mp hnd).1
    cases hkn : known k with
    | true =>
      simp only [GC.loop, hkn, if_true] at herr ⊢
      obtain ⟨pre, key, post, lb, evs, h1, h2, h3, h4, h5, h6⟩ :=
        ih s hrest hnd1 (fun k1 hk1 => hpres k1 (List.mem_cons_of_mem k hk1)) e herr
      refine ⟨k :: pre, key, post, lb, evs, by rw [h1]; rfl, h2, h3, ?_, h5, ?_⟩
      · intro k1
        rw [h4 k1]
        by_cases hk1 : k1 = k
        · subst hk1; simp [hkn]
        · simp [hk1]
      · intro ev hev
        obtain ⟨k1, hm, hr⟩ := h6 ev hev
        exact ⟨k1, List.mem_cons_of_mem k hm, hr⟩
    | false =>
      simp only [GC.loop, hkn, Bool.false_eq_true, if_false] at herr ⊢
      rcases Delete_canonical m l k s (hc k (List.mem_cons_self k rest)) with
        ⟨hs, _⟩ | ⟨lb, e1, hs, hcl, hd⟩ | ⟨lb, hs, hcl, hd⟩
      · exact absurd hs (hpres k (List.mem_cons_self k rest))
      · rw [hd] at herr ⊢
        simp only [Option.some.injEq] at herr
        subst herr
        refine ⟨[], k, rest, lb, [], rfl, hkn, hs, ?_, ?_, ?_⟩
        · intro k1; simp [State.Cleanup]
        · simp [State.Cleanup, hcl]
        · simp
      · rw [hd] at herr ⊢
        simp only at herr ⊢
        have hpres1 : ∀ key ∈ rest, ((s.Cleanup m lb).1.Delete k).snapshotter key ≠ none := by
          intro key hmem
          have hne : key ≠ k := fun h => hnotin (h ▸ hmem)
          simpa [State.Delete, Snapshotter.Delete, State.Cleanup, hne] using
            hpres key (List.mem_cons_of_mem k hmem)
        obtain ⟨pre, key, post, lb1, evs, h1, h2, h3, h4, h5, h6⟩ :=
          ih ((s.Cleanup m lb).1.Delete k) hrest hnd1 hpres1 e herr
        have hkey : key ≠ k := by
          intro h
          apply hnotin
          rw [h1, ← h]
          simp
        refine ⟨k :: pre, key, post, lb1,
          [Event.Cleanup lb none, Event.snapshotterDelete k] ++ evs,
          by rw [h1]; rfl, h2, ?_, ?_, ?_, ?_⟩
        · simpa [State.Delete, Snapshotter.Delete, State.Cleanup, hkey] using h3
        · intro k1
          rw [h4 k1]
          by_cases hk1 : k1 = k
          · subst hk1; simp [hkn, State.Delete, Snapshotter.Delete]
          · simp [hk1, State.Delete, Snapshotter.Delete, State.Cleanup]
        · rw [h5]; simp [State.Delete, State.Cleanup, hcl]
        · intro ev hev
          simp only [List.cons_append, List.nil_append, List.mem_cons] at hev
          rcases hev with hev | hev | hev
          · exact ⟨k, List.mem_cons_self k pre, hkn, Or.inr ⟨lb, hs, hev⟩⟩
          · exact ⟨k, List.mem_cons_self k pre, hkn, Or.inl hev⟩
          · obtain ⟨k1, hm, hk1, hr⟩ := h6 ev hev
            refine ⟨k1, List.mem_cons_of_mem k hm, hk1, ?_⟩
            rcases hr with hr | ⟨lb2, hl, hr⟩
            · exact Or.inl hr
            · refine Or.inr ⟨lb2, ?_, hr⟩
              by_cases hkk : k1 = k
              · rw [hkk] at hl
                simp [State.Delete, Snapshotter.Delete] at hl
              · simpa [State.Delete, Snapshotter.Delete, State.Cleanup, hkk] using hl


/-- `Shutdown` is `GC` of the empty list of names. -/
theorem Shutdown_eq (m : L7Methods W) (l : L7s) (order : List String) (s : State W) :
    Shutdown m l order s = GC m l [] order s := by
  unfold Shutdown
  rcases GC m l [] order s with ⟨s1, _ | e⟩ <;> rfl

/-- The keys of a range order over a store with canonical keys are canonical. -/
theorem RangeOrder_canonical (l : L7s) (order : List String) (s : State W)
    (hcanon : ∀ key, s.snapshotter key ≠ none → l.namer.LoadBalancer key = key)
    (horder : RangeOrder order s.snapshotter.Snapshot) :
    ∀ key ∈ order, l.namer.LoadBalancer key = key :=
  fun key hmem => hcanon key ((horder.2 key).mp hmem)

/-! ## GC and Shutdown -/

/-- C11: when every store key is a canonical name, a `GC(S)` that returns no
error leaves in the store exactly the previously tracked entries whose key is
the canonical form of an element of `S`, each holding the entity it held, and
has written to no entity other than those of the removed entries. -/
theorem GC_ok_keeps_exactly (m : L7Methods W) (l : L7s) (names order : List String)
    (s : State W)
    (hcanon : ∀ key, s.snapshotter key ≠ none → l.namer.LoadBalancer key = key)
    (horder : RangeOrder order s.snapshotter.Snapshot)
    (hok : (GC m l names order s).2 = none) :
    (∀ key, (GC m l names order s).1.snapshotter key =
      if key ∈ names.map l.namer.LoadBalancer then s.snapshotter key else none) ∧
    (∀ lb, (∀ key, key ∉ names.map l.namer.LoadBalancer → s.snapshotter key ≠ some lb) →
      (GC m l names order s).1.heap lb = s.heap lb) := by
  have hc := RangeOrder_canonical l order s hcanon horder
  constructor
  · intro key
    by_cases hk : key ∈ names.map l.namer.LoadBalancer
    · rw [if_pos hk]
      rcases GC_loop_store m l _ order s hc key with h | ⟨_, _, h3⟩
      · exact h
      · simp [hk] at h3
    · rw [if_neg hk]
      cases hs : s.snapshotter key with
      | none =>
        rcases GC_loop_store m l _ order s hc key with h | ⟨h, _, _⟩
        · rw [← hs]; exact h
        · exact h
      | some lb =>
        have hmem : key ∈ order := (horder.2 key).mpr (by simp [Snapshotter.Snapshot, hs])
        obtain ⟨_, _, hall⟩ := GC_loop_ok m l _ order s hc hok
        exact (hall key hmem (by simp [hk])).1
  · intro lb hlb
    apply GC_loop_heap m l _ order s hc lb
    intro key _ hkey
    exact hlb key (by simpa using hkey)

/-- Witness of C11: with `ns-a` and `ns-b` tracked, `GC` of the name `ns/a`
keeps `ns-a` and removes `ns-b`. -/
theorem GC_ok_keeps_exactly_witness :
    (GC okMethods scrubPool ["ns/a"] ["ns-b", "ns-a"] twoTrackedState).2 = none ∧
    (∀ key, (GC okMethods scrubPool ["ns/a"] ["ns-b", "ns-a"] twoTrackedState).1.snapshotter key =
      if key ∈ ["ns/a"].map scrubPool.namer.LoadBalancer then twoTrackedState.snapshotter key
      else none) ∧
    (∀ lb, (∀ key, key ∉ ["ns/a"].map scrubPool.namer.LoadBalancer →
        twoTrackedState.snapshotter key ≠ some lb) →
      (GC okMethods scrubPool ["ns/a"] ["ns-b", "ns-a"] twoTrackedState).1.heap lb =
        twoTrackedState.heap lb) :=
  ⟨by decide,
   GC_ok_keeps_exactly okMethods scrubPool ["ns/a"] ["ns-b", "ns-a"] twoTrackedState
    (by
      intro key h
      simp only [twoTrackedState, scrubPool, scrubNamer] at h ⊢
      split_ifs at h ⊢ <;> simp_all)
    ⟨by decide, by
      intro key
      simp only [twoTrackedState, Snapshotter.Snapshot]
      split_ifs <;> simp_all⟩
    (by decide)⟩

/-- C12: when every store key is a canonical name, `GC(S)`, whether it returns
an error or not, leaves every entry whose key is the canonical form of an
element of `S` as it was; each of its calls is the `Cleanup` of the entity of
an entry whose key is outside the canonicalised set, or the removal of such an
entry; and it writes to no entity other than those of such entries. -/
theorem GC_known_untouched (m : L7Methods W) (l : L7s) (names order : List String)
    (s : State W)
    (hcanon : ∀ key, s.snapshotter key ≠ none → l.namer.LoadBalancer key = key)
    (horder : RangeOrder order s.snapshotter.Snapshot) :
    (∀ key ∈ names.map l.namer.LoadBalancer,
      (GC m l names order s).1.snapshotter key = s.snapshotter key) ∧
    (∀ ev ∈ newEvents s (GC m l names order s).1,
      ∃ key, key ∉ names.map l.namer.LoadBalancer ∧ ∃ lb, s.snapshotter key = some lb ∧
        (ev = Event.snapshotterDelete key ∨ ∃ err, ev = Event.Cleanup lb err)) ∧
    (∀ lb, (∀ key, key ∉ names.map l.namer.LoadBalancer → s.snapshotter key ≠ some lb) →
      (GC m l names order s).1.heap lb = s.heap lb) := by
  have hc := RangeOrder_canonical l order s hcanon horder
  refine ⟨?_, ?_, ?_⟩
  · intro key hk
    rcases GC_loop_store m l _ order s hc key with h | ⟨_, _, h3⟩
    · exact h
    · simp [hk] at h3
  · obtain ⟨evs, ht, hall⟩ := GC_loop_events m l
      (fun name => decide (name ∈ names.map l.namer.LoadBalancer)) order s hc
    have hn : newEvents s (GC m l names order s).1 = evs := newEvents_of_trace s _ evs ht
    rw [hn]
    intro ev hev
    obtain ⟨key, _, hk, lb, h1, h2⟩ := hall ev hev
    exact ⟨key, by simpa using hk, lb, h1, h2⟩
  · intro lb hlb
    apply GC_loop_heap m l _ order s hc lb
    intro key _ hkey
    exact hlb key (by simpa using hkey)

/-- Witness of C12: a `GC` of the name `ns/a` that fails on the orphan `ns-b`. -/
theorem GC_known_untouched_witness :
    (∀ key ∈ ["ns/a"].map scrubPool.namer.LoadBalancer,
      (GC failMethods scrubPool ["ns/a"] ["ns-a", "ns-b"] twoTrackedState).1.snapshotter key =
        twoTrackedState.snapshotter key) ∧
    (∀ ev ∈ newEvents twoTrackedState
        (GC failMethods scrubPool ["ns/a"] ["ns-a", "ns-b"] twoTrackedState).1,
      ∃ key, key ∉ ["ns/a"].map scrubPool.namer.LoadBalancer ∧
        ∃ lb, twoTrackedState.snapshotter key = some lb ∧
          (ev = Event.snapshotterDelete key ∨ ∃ err, ev = Event.Cleanup lb err)) ∧
    (∀ lb, (∀ key, key ∉ ["ns/a"].map scrubPool.namer.LoadBalancer →
        twoTrackedState.snapshotter key ≠ some lb) →
      (GC failMethods scrubPool ["ns/a"] ["ns-a", "ns-b"] twoTrackedState).1.heap lb =
        twoTrackedState.heap lb) :=
  GC_known_untouched failMethods scrubPool ["ns/a"] ["ns-a", "ns-b"] twoTrackedState
    (by
      intro key h
      simp only [twoTrackedState, scrubPool, scrubNamer] at h ⊢
      split_ifs at h ⊢ <;> simp_all)
    ⟨by decide, by
      intro key
      simp only [twoTrackedState, Snapshotter.Snapshot]
      split_ifs <;> simp_all⟩


/-- Counterexample to C13: over `suffixNamer`, in the pool reached by
`Sync(riA)` and `Sync(riSuffixed)`, `GC` of no names visits `ns/a--uid` first;
its `Delete` cleans up the entity of the other entry, removes nothing and
returns no error; the `Delete` of the second key fails; the orphan visited
before the failing one is still in the store. -/
theorem GC_visited_orphan_remains :
    (GC okMethods suffixPool [] ["ns/a--uid", "ns/a--uid--uid--uid"] suffixSynced).2 =
      some "loadbalancer ns/a--uid--uid--uid--uid--uid not in pool" ∧
    newEvents suffixSynced
      (GC okMethods suffixPool [] ["ns/a--uid", "ns/a--uid--uid--uid"] suffixSynced).1 =
      [Event.Cleanup 1 none, Event.snapshotterDelete "ns/a--uid--uid"] ∧
    ¬ ((GC okMethods suffixPool [] ["ns/a--uid", "ns/a--uid--uid--uid"]
        suffixSynced).1.snapshotter "ns/a--uid" = none) := by
  decide

/-- C13, amended: when every store key is a canonical name, for every list of
names `S` and iteration order over the snapshot, if `GC(S)` returns an error
then that error is the one `Cleanup` returned for an orphan of the order, and
this `Cleanup` is the last call of `GC`: the calls before it are the `Cleanup`
and removal of orphans visited earlier, those orphans are removed, and the
failing entry and every entry after it in the order are in the store as they
were. -/
theorem GC_error_stops (m : L7Methods W) (l : L7s) (names order : List String)
    (s : State W) (e : GoError)
    (hcanon : ∀ key, s.snapshotter key ≠ none → l.namer.LoadBalancer key = key)
    (horder : RangeOrder order s.snapshotter.Snapshot)
    (herr : (GC m l names order s).2 = some e) :
    ∃ (pre : List String) (key : String) (post : List String) (lb : Addr)
      (evs : List Event),
      order = pre ++ key :: post ∧ key ∉ names.map l.namer.LoadBalancer ∧
      s.snapshotter key = some lb ∧
      newEvents s (GC m l names order s).1 = evs ++ [Event.Cleanup lb (some e)] ∧
      (∀ ev ∈ evs, ∃ k ∈ pre, k ∉ names.map l.namer.LoadBalancer ∧
        (ev = Event.snapshotterDelete k ∨
          ∃ lb1, s.snapshotter k = some lb1 ∧ ev = Event.Cleanup lb1 none)) ∧
      (∀ k ∈ pre, k ∉ names.map l.namer.LoadBalancer →
        (GC m l names order s).1.snapshotter k = none) ∧
      (GC m l names order s).1.snapshotter key = some lb ∧
      (∀ k ∈ post, (GC m l names order s).1.snapshotter k = s.snapshotter k) := by
  have hc := RangeOrder_canonical l order s hcanon horder
  have hpres : ∀ key ∈ order, s.snapshotter key ≠ none :=
    fun key hmem => (horder.2 key).mp hmem
  obtain ⟨pre, key, post, lb, evs, h1, h2, h3, h4, h5, h6⟩ :=
    GC_loop_error m l (fun name => decide (name ∈ names.map l.namer.LoadBalancer))
      order s hc horder.1 hpres e herr
  have hnd : (pre ++ key :: post).Nodup := h1 ▸ horder.1
  have hdis : ∀ k, k ∈ key :: post → k ∉ pre := by
    intro k hk hp
    exact (List.nodup_append.mp hnd).2.2 hp hk
  refine ⟨pre, key, post, lb, evs, h1, by simpa using h2, h3, ?_, ?_, ?_, ?_, ?_⟩
  · apply newEvents_of_trace
    rw [List.append_assoc] at h5
    exact h5
  · intro ev hev
    obtain ⟨k, hk, hkn, hr⟩ := h6 ev hev
    exact ⟨k, hk, by simpa using hkn, hr⟩
  · intro k hk hkn
    have := h4 k
    rw [if_pos ⟨hk, by simpa using hkn⟩] at this
    exact this
  · have := h4 key
    rw [if_neg (fun h => hdis key (List.mem_cons_self key post) h.1)] at this
    rw [← h3]; exact this
  · intro k hk
    have := h4 k
    rw [if_neg (fun h => hdis k (List.mem_cons_of_mem key hk) h.1)] at this
    exact this

/-- Witness of C13, amended: `GC` of no names fails on the first entry. -/
theorem GC_error_stops_witness :
    ∃ (pre : List String) (key : String) (post : List String) (lb : Addr)
      (evs : List Event),
      ["ns-a", "ns-b"] = pre ++ key :: post ∧
      key ∉ ([] : List String).map scrubPool.namer.LoadBalancer ∧
      twoTrackedState.snapshotter key = some lb ∧
      newEvents twoTrackedState
        (GC failMethods scrubPool [] ["ns-a", "ns-b"] twoTrackedState).1 =
        evs ++ [Event.Cleanup lb (some "resource in use")] ∧
      (∀ ev ∈ evs, ∃ k ∈ pre, k ∉ ([] : List String).map scrubPool.namer.LoadBalancer ∧
        (ev = Event.snapshotterDelete k ∨
          ∃ lb1, twoTrackedState.snapshotter k = some lb1 ∧ ev = Event.Cleanup lb1 none)) ∧
      (∀ k ∈ pre, k ∉ ([] : List String).map scrubPool.namer.LoadBalancer →
        (GC failMethods scrubPool [] ["ns-a", "ns-b"] twoTrackedState).1.snapshotter k = none) ∧
      (GC failMethods scrubPool [] ["ns-a", "ns-b"] twoTrackedState).1.snapshotter key =
        some lb ∧
      (∀ k ∈ post, (GC failMethods scrubPool [] ["ns-a", "ns-b"] twoTrackedState).1.snapshotter k =
        twoTrackedState.snapshotter k) :=
  GC_error_stops failMethods scrubPool [] ["ns-a", "ns-b"] twoTrackedState "resource in use"
    (by
      intro key h
      simp only [twoTrackedState, scrubPool, scrubNamer] at h ⊢
      split_ifs at h ⊢ <;> simp_all)
    ⟨by decide, by
      intro key
      simp only [twoTrackedState, Snapshotter.Snapshot]
      split_ifs <;> simp_all⟩
    (by decide)

/-- Counterexample to C14: when `Cleanup` fails, the first `GC` returns its
error and leaves the entity tracked, and the second `GC` calls `Cleanup` again
and returns the error again. -/
theorem GC_twice_retries :
    ¬ ((GC failMethods scrubPool [] ["ns-a"]
          (GC failMethods scrubPool [] ["ns-a"] trackedState).1).2 = none ∧
        ∀ lb err, Event.Cleanup lb err ∉
          newEvents (GC failMethods scrubPool [] ["ns-a"] trackedState).1
            (GC failMethods scrubPool [] ["ns-a"]
              (GC failMethods scrubPool [] ["ns-a"] trackedState).1).1) := by
  intro h
  have h1 := h.1
  revert h1
  decide

/-- C14, amended: when every store key is a canonical name and a first `GC(S)`
returns no error, a second `GC(S)` with no call in between returns no error
and changes nothing: it makes no call, so invokes no `Cleanup`, and leaves the
store as the first call left it. -/
theorem GC_twice (m : L7Methods W) (l : L7s) (names order1 order2 : List String)
    (s : State W)
    (hcanon : ∀ key, s.snapshotter key ≠ none → l.namer.LoadBalancer key = key)
    (horder1 : RangeOrder order1 s.snapshotter.Snapshot)
    (hok : (GC m l names order1 s).2 = none)
    (horder2 : RangeOrder order2 (GC m l names order1 s).1.snapshotter.Snapshot) :
    GC m l names order2 (GC m l names order1 s).1 = ((GC m l names order1 s).1, none) := by
  have hc := RangeOrder_canonical l order1 s hcanon horder1
  apply GC_loop_all_known
  intro key hmem
  have hpres : (GC m l names order1 s).1.snapshotter key ≠ none := (horder2.2 key).mp hmem
  by_contra hk
  obtain ⟨_, _, hall⟩ := GC_loop_ok m l
    (fun name => decide (name ∈ names.map l.namer.LoadBalancer)) order1 s hc hok
  rcases GC_loop_store m l (fun name => decide (name ∈ names.map l.namer.LoadBalancer))
    order1 s hc key with h | ⟨h, _, _⟩
  · have hs : s.snapshotter key ≠ none := by
      intro h0
      apply hpres
      show (GC.loop m l _ order1 s).1.snapshotter key = none
      rw [h, h0]
    have hmem1 : key ∈ order1 := (horder1.2 key).mpr hs
    exact hpres (hall key hmem1 (by simpa using hk)).1
  · exact hpres h

/-- Witness of C14, amended: `GC` of the name `ns/a` on two tracked entries,
then again on the one that is left. -/
theorem GC_twice_witness :
    GC okMethods scrubPool ["ns/a"] ["ns-a"]
        (GC okMethods scrubPool ["ns/a"] ["ns-b", "ns-a"] twoTrackedState).1 =
      ((GC okMethods scrubPool ["ns/a"] ["ns-b", "ns-a"] twoTrackedState).1, none) :=
  GC_twice okMethods scrubPool ["ns/a"] ["ns-b", "ns-a"] ["ns-a"] twoTrackedState
    (by
      intro key h
      simp only [twoTrackedState, scrubPool, scrubNamer] at h ⊢
      split_ifs at h ⊢ <;> simp_all)
    ⟨by decide, by
      intro key
      simp only [twoTrackedState, Snapshotter.Snapshot]
      split_ifs <;> simp_all⟩
    (by decide)
    ⟨by decide, by
      intro key
      by_cases h1 : key = "ns-a"
      · subst h1; decide
      · by_cases h2 : key = "ns-b"
        · subst h2; decide
        · simp [GC, GC.loop, Delete, Get, Snapshotter.Get, Snapshotter.Snapshot,
            State.Cleanup, State.Delete, Snapshotter.Delete, twoTrackedState, scrubPool,
            scrubNamer, okMethods, h1, h2, Function.update]⟩

/-- Counterexample to C15: over `swapNamer`, in the pool reached by
`Sync(riDash)`, `Shutdown` returns no error and the store is not empty. -/
theorem Shutdown_ok_not_empty :
    ¬ ((Shutdown okMethods swapPool ["ns/a"] swapSynced).2 = none →
        ∀ key, (Shutdown okMethods swapPool ["ns/a"] swapSynced).1.snapshotter key = none) := by
  intro h
  have h1 := h (by decide) "ns/a"
  revert h1
  decide

/-- C15, amended: for every pool state, `Shutdown` returns what `GC` of the
empty list of names returns and leaves the state it leaves; and when every
store key is a canonical name and `Shutdown` returns no error, the store is
empty and `Cleanup` has been called, with success, on every entity that was
tracked. -/
theorem Shutdown_is_GC_nil (m : L7Methods W) (l : L7s) (order : List String) (s : State W) :
    Shutdown m l order s = GC m l [] order s ∧
    ((∀ key, s.snapshotter key ≠ none → l.namer.LoadBalancer key = key) →
      RangeOrder order s.snapshotter.Snapshot →
      (Shutdown m l order s).2 = none →
      (∀ key, (Shutdown m l order s).1.snapshotter key = none) ∧
      ∀ key lb, s.snapshotter key = some lb →
        Event.Cleanup lb none ∈ newEvents s (Shutdown m l order s).1) := by
  refine ⟨Shutdown_eq m l order s, ?_⟩
  intro hcanon horder
  have hc := RangeOrder_canonical l order s hcanon horder
  rw [Shutdown_eq]
  intro hok
  obtain ⟨evs, ht, hall⟩ := GC_loop_ok m l
    (fun name => decide (name ∈ ([] : List String).map l.namer.LoadBalancer)) order s hc hok
  have hn : newEvents s (GC m l [] order s).1 = evs := newEvents_of_trace s _ evs ht
  constructor
  · intro key
    cases hs : s.snapshotter key with
    | none =>
      rcases GC_loop_store m l
        (fun name => decide (name ∈ ([] : List String).map l.namer.LoadBalancer))
        order s hc key with h | ⟨h, _, _⟩
      · rw [← hs]; exact h
      · exact h
    | some lb =>
      have hmem : key ∈ order := (horder.2 key).mpr (by simp [Snapshotter.Snapshot, hs])
      exact (hall key hmem (by simp)).1
  · intro key lb hs
    have hmem : key ∈ order := (horder.2 key).mpr (by simp [Snapshotter.Snapshot, hs])
    rw [hn]
    exact (hall key hmem (by simp)).2 lb hs

/-- Witness of C15, amended: `Shutdown` of a pool tracking two entities
returns no error and empties the store; and over `swapNamer`, where a store
key is not canonical, `Shutdown` is still `GC` of the empty list. -/
theorem Shutdown_is_GC_nil_witness :
    (Shutdown okMethods scrubPool ["ns-a", "ns-b"] twoTrackedState).2 = none ∧
    ((∀ key, (Shutdown okMethods scrubPool ["ns-a", "ns-b"] twoTrackedState).1.snapshotter
        key = none) ∧
      ∀ key lb, twoTrackedState.snapshotter key = some lb →
        Event.Cleanup lb none ∈ newEvents twoTrackedState
          (Shutdown okMethods scrubPool ["ns-a", "ns-b"] twoTrackedState).1) ∧
    Shutdown okMethods swapPool ["ns/a"] swapSynced =
      GC okMethods swapPool [] ["ns/a"] swapSynced :=
  ⟨by decide,
   (Shutdown_is_GC_nil okMethods scrubPool ["ns-a", "ns-b"] twoTrackedState).2
    (by
      intro key h
      simp only [twoTrackedState, scrubPool, scrubNamer] at h ⊢
      split_ifs at h ⊢ <;> simp_all)
    ⟨by decide, by
      intro key
      simp only [twoTrackedState, Snapshotter.Snapshot]
      split_ifs <;> simp_all⟩
    (by decide),
   (Shutdown_is_GC_nil okMethods swapPool ["ns/a"] swapSynced).1⟩

/-! ## The invariant of the pool -/

/-- `Sync` keeps the invariant, over an idempotent naming function and an
`edgeHop` that leaves `Name` as it is. -/
theorem Sync_inv (m : L7Methods W) (l : L7s) (ri : L7RuntimeInfo) (s : State W)
    (hid : ∀ key, l.namer.LoadBalancer (l.namer.LoadBalancer key) = l.namer.LoadBalancer key)
    (hname : ∀ w lb, (m.edgeHop w lb).lb.Name = lb.Name)
    (hinv : PoolInv l s) : PoolInv l (Sync m l ri s).1 := by
  cases hs : s.snapshotter (l.namer.LoadBalancer (l.namer.LoadBalancer ri.Name)) with
  | some lb =>
    obtain ⟨s1, h1, _, _, h4, h5, h6⟩ := Sync_of_found m l ri s lb hs
    rw [hid] at hs
    obtain ⟨hl1, hl2, hl3⟩ := hinv _ lb hs
    rw [h6]
    intro key a hka
    by_cases hk : key = l.namer.LoadBalancer ri.Name
    · subst hk
      simp [State.Add, Snapshotter.Add] at hka
      subst hka
      refine ⟨hid _, ?_, by simpa [State.Add, State.edgeHop, h4] using hl3⟩
      simp [State.Add, State.edgeHop, hname, h5, hl2]
    · have hka1 : s.snapshotter key = some a := by
        simpa [State.Add, Snapshotter.Add, State.edgeHop, hk, h1] using hka
      obtain ⟨g1, g2, g3⟩ := hinv key a hka1
      refine ⟨g1, ?_, by simpa [State.Add, State.edgeHop, h4] using g3⟩
      by_cases ha : a = lb
      · subst ha
        simp [State.Add, State.edgeHop, hname, h5, g2]
      · simp [State.Add, State.edgeHop, h5, ha, g2]
  | none =>
    cases hi : ri.IngressList.Items with
    | nil =>
      rw [Sync_of_absent_nil m l ri s hs hi]
      exact hinv
    | cons item items =>
      obtain ⟨s1, h1, _, _, h4, h5, h6⟩ := Sync_of_absent m l ri s item items hs hi
      rw [h6]
      intro key a hka
      by_cases hk : key = l.namer.LoadBalancer ri.Name
      · subst hk
        simp [State.Add, Snapshotter.Add] at hka
        subst hka
        refine ⟨hid _, ?_, by simp [State.Add, State.edgeHop, h4]⟩
        simp [State.Add, State.edgeHop, hname, h5]
      · have hka1 : s.snapshotter key = some a := by
          simpa [State.Add, Snapshotter.Add, State.edgeHop, hk, h1] using hka
        obtain ⟨g1, g2, g3⟩ := hinv key a hka1
        have ha : a ≠ s.next := Nat.ne_of_lt g3
        refine ⟨g1, ?_, ?_⟩
        · simp [State.Add, State.edgeHop, h5, ha, g2]
        · have hlt : a < s.next + 1 := Nat.lt_succ_of_lt g3
          simpa [State.Add, State.edgeHop, h4] using hlt

/-- `Delete` keeps the invariant when `Cleanup` leaves `Name` as it is. -/
theorem Delete_inv (m : L7Methods W) (l : L7s) (name : String) (s : State W)
    (hname : ∀ w lb, (m.Cleanup w lb).lb.Name = lb.Name)
    (hinv : PoolInv l s) : PoolInv l (Delete m l name s).1 := by
  have hclean : ∀ lb, PoolInv l (s.Cleanup m lb).1 := by
    intro lb key a hka
    have hka1 : s.snapshotter key = some a := by simpa [State.Cleanup] using hka
    obtain ⟨g1, g2, g3⟩ := hinv key a hka1
    refine ⟨g1, ?_, by simpa [State.Cleanup] using g3⟩
    by_cases ha : a = lb
    · subst ha
      simp [State.Cleanup, hname, g2]
    · simp [State.Cleanup, ha, g2]
  cases hs : s.snapshotter (l.namer.LoadBalancer (l.namer.LoadBalancer name)) with
  | none =>
    rw [Delete_of_absent m l name s hs]
    exact hinv
  | some lb =>
    cases hc : (m.Cleanup s.gce (s.heap lb)).err with
    | some e =>
      rw [Delete_of_found_error m l name s lb e hs hc]
      exact hclean lb
    | none =>
      rw [Delete_of_found_ok m l name s lb hs hc]
      intro key a hka
      by_cases hk : key = l.namer.LoadBalancer name
      · subst hk
        simp [State.Delete, Snapshotter.Delete] at hka
      · have hka1 : (s.Cleanup m lb).1.snapshotter key = some a := by
          simpa [State.Delete, Snapshotter.Delete, hk] using hka
        obtain ⟨g1, g2, g3⟩ := hclean lb key a hka1
        exact ⟨g1, by simpa [State.Delete] using g2, by simpa [State.Delete] using g3⟩

/-- `GC.loop` keeps the invariant, whatever keys it is given. -/
theorem GC_loop_inv (m : L7Methods W) (l : L7s) (known : String → Bool)
    (hname : ∀ w lb, (m.Cleanup w lb).lb.Name = lb.Name) :
    ∀ (order : List String) (s : State W), PoolInv l s →
      PoolInv l (GC.loop m l known order s).1 := by
  intro order
  induction order with
  | nil => intro s hinv; exact hinv
  | cons k rest ih =>
    intro s hinv
    cases hkn : known k with
    | true =>
      simp only [GC.loop, hkn, if_true]
      exact ih s hinv
    | false =>
      simp only [GC.loop, hkn, Bool.false_eq_true, if_false]
      have hd := Delete_inv m l k s hname hinv
      rcases hdel : Delete m l k s with ⟨s1, _ | e⟩
      · rw [hdel] at hd
        exact ih s1 hd
      · rw [hdel] at hd
        exact hd

/-- Every call keeps the invariant. -/
theorem runCalls_inv (m : L7Methods W) (l : L7s)
    (hid : ∀ key, l.namer.LoadBalancer (l.namer.LoadBalancer key) = l.namer.LoadBalancer key)
    (hedge : ∀ w lb, (m.edgeHop w lb).lb.Name = lb.Name)
    (hclean : ∀ w lb, (m.Cleanup w lb).lb.Name = lb.Name) :
    ∀ (calls : List Call) (s : State W), PoolInv l s → PoolInv l (runCalls m l calls s) := by
  intro calls
  induction calls with
  | nil => intro s hinv; exact hinv
  | cons c calls ih =>
    intro s hinv
    simp only [runCalls, List.foldl_cons]
    apply ih
    cases c with
    | Sync ri => exact Sync_inv m l ri s hid hedge hinv
    | Delete name => exact Delete_inv m l name s hclean hinv
    | GC names order => exact GC_loop_inv m l _ hclean order s hinv
    | Shutdown order =>
      simp only [Call.apply]
      rw [Shutdown_eq]
      exact GC_loop_inv m l _ hclean order s hinv

/-- A state whose store is part of the store of `s` and whose allocator is not
behind that of `s` inherits the store invariant. -/
theorem KeyInv_of_sub (l : L7s) (s s1 : State W)
    (hsub : ∀ key lb, s1.snapshotter key = some lb → s.snapshotter key = some lb)
    (hnext : s.next ≤ s1.next) (hinv : KeyInv l s) : KeyInv l s1 := by
  refine ⟨?_, ?_⟩
  · intro key lb h
    obtain ⟨g1, g2⟩ := hinv.1 key lb (hsub key lb h)
    exact ⟨g1, Nat.lt_of_lt_of_le g2 hnext⟩
  · intro key1 key2 lb h1 h2
    exact hinv.2 key1 key2 lb (hsub key1 lb h1) (hsub key2 lb h2)

/-- `Sync` keeps the store invariant over an idempotent naming function,
whatever `edgeHop` does. -/
theorem Sync_keyInv (m : L7Methods W) (l : L7s) (ri : L7RuntimeInfo) (s : State W)
    (hid : ∀ key, l.namer.LoadBalancer (l.namer.LoadBalancer key) = l.namer.LoadBalancer key)
    (hinv : KeyInv l s) : KeyInv l (Sync m l ri s).1 := by
  cases hs : s.snapshotter (l.namer.LoadBalancer (l.namer.LoadBalancer ri.Name)) with
  | some lb =>
    obtain ⟨s1, h1, _, _, h4, _, h6⟩ := Sync_of_found m l ri s lb hs
    rw [hid] at hs
    apply KeyInv_of_sub l s _ _ _ hinv
    · intro key a hka
      rw [h6] at hka
      by_cases hk : key = l.namer.LoadBalancer ri.Name
      · subst hk
        simp [State.Add, Snapshotter.Add] at hka
        rw [hs, hka]
      · simpa [State.Add, Snapshotter.Add, State.edgeHop, hk, h1] using hka
    · rw [h6]
      simp [State.Add, State.edgeHop, h4]
  | none =>
    cases hi : ri.IngressList.Items with
    | nil =>
      rw [Sync_of_absent_nil m l ri s hs hi]
      exact hinv
    | cons item items =>
      obtain ⟨s1, h1, _, _, h4, _, h6⟩ := Sync_of_absent m l ri s item items hs hi
      rw [h6]
      have hst : ∀ key a,
          ((s1.edgeHop m s.next).1.Add (l.namer.LoadBalancer ri.Name) s.next).snapshotter key =
            some a →
          (key = l.namer.LoadBalancer ri.Name ∧ a = s.next) ∨
            (key ≠ l.namer.LoadBalancer ri.Name ∧ s.snapshotter key = some a) := by
        intro key a hka
        by_cases hk : key = l.namer.LoadBalancer ri.Name
        · left
          subst hk
          simp [State.Add, Snapshotter.Add] at hka
          exact ⟨rfl, hka.symm⟩
        · right
          exact ⟨hk, by simpa [State.Add, Snapshotter.Add, State.edgeHop, hk, h1] using hka⟩
      have hnext : ((s1.edgeHop m s.next).1.Add (l.namer.LoadBalancer ri.Name) s.next).next =
          s.next + 1 := by
        simp [State.Add, State.edgeHop, h4]
      refine ⟨?_, ?_⟩
      · intro key a hka
        rw [hnext]
        rcases hst key a hka with ⟨hk, ha⟩ | ⟨_, hsa⟩
        · rw [hk, ha]
          exact ⟨hid _, Nat.lt_succ_self _⟩
        · obtain ⟨g1, g2⟩ := hinv.1 key a hsa
          exact ⟨g1, Nat.lt_succ_of_lt g2⟩
      · intro key1 key2 a hk1 hk2
        rcases hst key1 a hk1 with ⟨e1, a1⟩ | ⟨_, hs1⟩
        · rcases hst key2 a hk2 with ⟨e2, _⟩ | ⟨_, hs2⟩
          · rw [e1, e2]
          · have := (hinv.1 key2 a hs2).2
            rw [a1] at this
            exact absurd this (Nat.lt_irrefl _)
        · rcases hst key2 a hk2 with ⟨_, a2⟩ | ⟨_, hs2⟩
          · have := (hinv.1 key1 a hs1).2
            rw [a2] at this
            exact absurd this (Nat.lt_irrefl _)
          · exact hinv.2 key1 key2 a hs1 hs2

/-- `Delete` keeps the store invariant, whatever `Cleanup` does. -/
theorem Delete_keyInv (m : L7Methods W) (l : L7s) (name : String) (s : State W)
    (hinv : KeyInv l s) : KeyInv l (Delete m l name s).1 := by
  cases hs : s.snapshotter (l.namer.LoadBalancer (l.namer.LoadBalancer name)) with
  | none =>
    rw [Delete_of_absent m l name s hs]
    exact hinv
  | some lb =>
    cases hc : (m.Cleanup s.gce (s.heap lb)).err with
    | some e =>
      rw [Delete_of_found_error m l name s lb e hs hc]
      apply KeyInv_of_sub l s _ _ _ hinv
      · intro key a hka
        simpa [State.Cleanup] using hka
      · simp [State.Cleanup]
    | none =>
      rw [Delete_of_found_ok m l name s lb hs hc]
      apply KeyInv_of_sub l s _ _ _ hinv
      · intro key a hka
        by_cases hk : key = l.namer.LoadBalancer name
        · subst hk
          simp [State.Delete, Snapshotter.Delete] at hka
        · simpa [State.Delete, Snapshotter.Delete, State.Cleanup, hk] using hka
      · simp [State.Delete, State.Cleanup]

/-- `GC.loop` keeps the store invariant, whatever keys it is given. -/
theorem GC_loop_keyInv (m : L7Methods W) (l : L7s) (known : String → Bool) :
    ∀ (order : List String) (s : State W), KeyInv l s →
      KeyInv l (GC.loop m l known order s).1 := by
  intro order
  induction order with
  | nil => intro s hinv; exact hinv
  | cons k rest ih =>
    intro s hinv
    cases hkn : known k with
    | true =>
      simp only [GC.loop, hkn, if_true]
      exact ih s hinv
    | false =>
      simp only [GC.loop, hkn, Bool.false_eq_true, if_false]
      have hd := Delete_keyInv m l k s hinv
      rcases hdel : Delete m l k s with ⟨s1, _ | e⟩
      · rw [hdel] at hd
        exact ih s1 hd
      · rw [hdel] at hd
        exact hd

/-- Every call keeps the store invariant. -/
theorem runCalls_keyInv (m : L7Methods W) (l : L7s)
    (hid : ∀ key, l.namer.LoadBalancer (l.namer.LoadBalancer key) = l.namer.LoadBalancer key) :
    ∀ (calls : List Call) (s : State W), KeyInv l s → KeyInv l (runCalls m l calls s) := by
  intro calls
  induction calls with
  | nil => intro s hinv; exact hinv
  | cons c calls ih =>
    intro s hinv
    simp only [runCalls, List.foldl_cons]
    apply ih
    cases c with
    | Sync ri => exact Sync_keyInv m l ri s hid hinv
    | Delete name => exact Delete_keyInv m l name s hinv
    | GC names order => exact GC_loop_keyInv m l _ order s hinv
    | Shutdown order =>
      simp only [Call.apply]
      rw [Shutdown_eq]
      exact GC_loop_keyInv m l _ order s hinv

/-- C16: over an idempotent naming function, in every state reached from the
empty pool by a sequence of `Sync`, `Delete`, `GC` and `Shutdown` calls, each
returning an error or not, every store key is a fixed point of the naming
function and no entity is stored under two different keys, whatever `edgeHop`
and `Cleanup` do; and the entity stored under a key has that key as its `Name`,
`edgeHop` and `Cleanup` being methods that do not assign `Name`. -/
theorem reachable_canonical (m : L7Methods W) (l : L7s) (lb0 : L7) (gce : W)
    (calls : List Call)
    (hid : ∀ key, l.namer.LoadBalancer (l.namer.LoadBalancer key) = l.namer.LoadBalancer key) :
    (∀ key lb, (runCalls m l calls (NewLoadBalancerPool lb0 gce)).snapshotter key = some lb →
      l.namer.LoadBalancer key = key) ∧
    (∀ key1 key2 lb,
      (runCalls m l calls (NewLoadBalancerPool lb0 gce)).snapshotter key1 = some lb →
      (runCalls m l calls (NewLoadBalancerPool lb0 gce)).snapshotter key2 = some lb →
      key1 = key2) ∧
    (KeepsName m →
      ∀ key lb, (runCalls m l calls (NewLoadBalancerPool lb0 gce)).snapshotter key = some lb →
        ((runCalls m l calls (NewLoadBalancerPool lb0 gce)).heap lb).Name = key) := by
  have hkey : KeyInv l (runCalls m l calls (NewLoadBalancerPool lb0 gce)) := by
    apply runCalls_keyInv m l hid
    constructor
    · intro key lb h
      simp [NewLoadBalancerPool] at h
    · intro key1 key2 lb h
      simp [NewLoadBalancerPool] at h
  refine ⟨fun key lb h => (hkey.1 key lb h).1, hkey.2, ?_⟩
  intro hm key lb h
  have hinv : PoolInv l (runCalls m l calls (NewLoadBalancerPool lb0 gce)) := by
    apply runCalls_inv m l hid hm.1 hm.2
    intro key lb h
    simp [NewLoadBalancerPool] at h
  exact (hinv key lb h).2.1

/-- Witness of C16: two `Sync` calls, a `GC` and a `Delete`, over `scrubNamer`. -/
theorem reachable_canonical_witness :
    (∀ key lb,
      (runCalls okMethods scrubPool
        [Call.Sync riA, Call.Sync riDash, Call.GC ["ns/a"] ["ns-a"], Call.Delete "ns/b"]
        (NewLoadBalancerPool zeroL7 0)).snapshotter key = some lb →
      scrubPool.namer.LoadBalancer key = key) ∧
    (∀ key1 key2 lb,
      (runCalls okMethods scrubPool
        [Call.Sync riA, Call.Sync riDash, Call.GC ["ns/a"] ["ns-a"], Call.Delete "ns/b"]
        (NewLoadBalancerPool zeroL7 0)).snapshotter key1 = some lb →
      (runCalls okMethods scrubPool
        [Call.Sync riA, Call.Sync riDash, Call.GC ["ns/a"] ["ns-a"], Call.Delete "ns/b"]
        (NewLoadBalancerPool zeroL7 0)).snapshotter key2 = some lb →
      key1 = key2) ∧
    (∀ key lb,
      (runCalls okMethods scrubPool
        [Call.Sync riA, Call.Sync riDash, Call.GC ["ns/a"] ["ns-a"], Call.Delete "ns/b"]
        (NewLoadBalancerPool zeroL7 0)).snapshotter key = some lb →
      ((runCalls okMethods scrubPool
        [Call.Sync riA, Call.Sync riDash, Call.GC ["ns/a"] ["ns-a"], Call.Delete "ns/b"]
        (NewLoadBalancerPool zeroL7 0)).heap lb).Name = key) :=
  have h := reachable_canonical okMethods scrubPool zeroL7 0
    [Call.Sync riA, Call.Sync riDash, Call.GC ["ns/a"] ["ns-a"], Call.Delete "ns/b"]
    (by intro key; simp only [scrubPool, scrubNamer]; split_ifs <;> simp_all)
  ⟨h.1, h.2.1, h.2.2 ⟨fun _ _ => rfl, fun _ _ => rfl⟩⟩

/-! ## The index `Items[0]` -/

/-- The ways `Sync` can end: it faults exactly when the ingress list is empty
and its lookup finds nothing; otherwise it returns, and the store holds under
the canonical name the entity that was found, or the newly allocated entity
built from the composite literal with `Items[0]`, as `edgeHop` left it. -/
theorem Sync_ends (m : L7Methods W) (l : L7s) (d : L7RuntimeInfo) (s : State W) :
    ((Sync m l d s).2 = Outcome.panicked ↔
      d.IngressList.Items = [] ∧
        s.snapshotter (l.namer.LoadBalancer (l.namer.LoadBalancer d.Name)) = none) ∧
    (d.IngressList.Items ≠ [] ∨
        s.snapshotter (l.namer.LoadBalancer (l.namer.LoadBalancer d.Name)) ≠ none →
      ∃ lb err, (Sync m l d s).2 = Outcome.returned err ∧
        (Sync m l d s).1.snapshotter (l.namer.LoadBalancer d.Name) = some lb ∧
        ((s.snapshotter (l.namer.LoadBalancer (l.namer.LoadBalancer d.Name)) = some lb ∧
            (Sync m l d s).1.next = s.next) ∨
          (s.snapshotter (l.namer.LoadBalancer (l.namer.LoadBalancer d.Name)) = none ∧
            lb = s.next ∧ (Sync m l d s).1.next = s.next + 1 ∧
            ∃ item, d.IngressList.Items[0]? = some item ∧
              (Sync m l d s).1.heap lb =
                (m.edgeHop s.gce
                  { runtimeInfo := d
                    Name := l.namer.LoadBalancer d.Name
                    cloud := l.cloud
                    namer := l.namer
                    mcrt := l.mcrt
                    recorder := l.recorderProducer.Recorder item.Namespace
                    Rest := 0 }).lb))) := by
  have hret : d.IngressList.Items ≠ [] ∨
        s.snapshotter (l.namer.LoadBalancer (l.namer.LoadBalancer d.Name)) ≠ none →
      ∃ lb err, (Sync m l d s).2 = Outcome.returned err ∧
        (Sync m l d s).1.snapshotter (l.namer.LoadBalancer d.Name) = some lb ∧
        ((s.snapshotter (l.namer.LoadBalancer (l.namer.LoadBalancer d.Name)) = some lb ∧
            (Sync m l d s).1.next = s.next) ∨
          (s.snapshotter (l.namer.LoadBalancer (l.namer.LoadBalancer d.Name)) = none ∧
            lb = s.next ∧ (Sync m l d s).1.next = s.next + 1 ∧
            ∃ item, d.IngressList.Items[0]? = some item ∧
              (Sync m l d s).1.heap lb =
                (m.edgeHop s.gce
                  { runtimeInfo := d
                    Name := l.namer.LoadBalancer d.Name
                    cloud := l.cloud
                    namer := l.namer
                    mcrt := l.mcrt
                    recorder := l.recorderProducer.Recorder item.Namespace
                    Rest := 0 }).lb)) := by
    intro h
    cases hs : s.snapshotter (l.namer.LoadBalancer (l.namer.LoadBalancer d.Name)) with
    | some lb =>
      obtain ⟨s1, _, _, _, h4, _, h6⟩ := Sync_of_found m l d s lb hs
      refine ⟨lb, (s1.edgeHop m lb).2, by rw [h6], ?_, Or.inl ⟨rfl, ?_⟩⟩
      · rw [h6]; simp [State.Add, Snapshotter.Add]
      · rw [h6]; simp [State.Add, State.edgeHop, h4]
    | none =>
      cases hi : d.IngressList.Items with
      | nil =>
        rcases h with h | h
        · exact absurd hi h
        · exact absurd hs h
      | cons item items =>
        obtain ⟨s1, _, _, h3, h4, h5, h6⟩ := Sync_of_absent m l d s item items hs hi
        refine ⟨s.next, (s1.edgeHop m s.next).2, by rw [h6], ?_,
          Or.inr ⟨rfl, rfl, ?_, item, ?_, ?_⟩⟩
        · rw [h6]; simp [State.Add, Snapshotter.Add]
        · rw [h6]; simp [State.Add, State.edgeHop, h4]
        · simp
        · rw [h6]; simp [State.Add, State.edgeHop, h3, h5]
  refine ⟨⟨?_, ?_⟩, hret⟩
  · intro hp
    by_contra hc
    have hpre : d.IngressList.Items ≠ [] ∨
        s.snapshotter (l.namer.LoadBalancer (l.namer.LoadBalancer d.Name)) ≠ none := by
      by_contra hn
      push_neg at hn
      exact hc hn
    obtain ⟨lb, err, h1, _⟩ := hret hpre
    rw [hp] at h1
    cases h1
  · intro hc
    rw [Sync_of_absent_nil m l d s hc.2 hc.1]

/-- Counterexample to C17: over `suffixNamer` the canonical name of `ns/a` is
tracked, yet `Sync` of a descriptor for `ns/a` with no ingress evaluates
`Items[0]` and faults: its lookup reads the twice-canonicalised name and finds
nothing. -/
theorem Sync_tracked_still_indexes :
    ¬ (suffixState.snapshotter (suffixPool.namer.LoadBalancer riNoIngress.Name) ≠ none →
        (Sync okMethods suffixPool riNoIngress suffixState).2 ≠ Outcome.panicked) := by
  intro h
  exact h (by decide) (by decide)

/-- C17, amended: `Items[0]`, the only index `Sync` evaluates, is in range for
every descriptor whose ingress list is non-empty; and when the naming function
maps the canonical name of `d.Name` to itself (as every idempotent one does)
it is not evaluated when that name is already tracked: `Sync` then returns,
also with an empty ingress list, allocates nothing and stores the tracked
entity again. Consequently, when `d` has an ingress, `Sync(d)` returns, and
what it stores under the canonical name is the entity its lookup found or the
newly allocated one built with `Items[0]`. -/
theorem Sync_index_in_range (m : L7Methods W) (l : L7s) (d : L7RuntimeInfo) (s : State W) :
    (d.IngressList.Items ≠ [] →
      ∃ lb err, (Sync m l d s).2 = Outcome.returned err ∧
        (Sync m l d s).1.snapshotter (l.namer.LoadBalancer d.Name) = some lb ∧
        ((s.snapshotter (l.namer.LoadBalancer (l.namer.LoadBalancer d.Name)) = some lb ∧
            (Sync m l d s).1.next = s.next) ∨
          (s.snapshotter (l.namer.LoadBalancer (l.namer.LoadBalancer d.Name)) = none ∧
            lb = s.next ∧ (Sync m l d s).1.next = s.next + 1 ∧
            ∃ item, d.IngressList.Items[0]? = some item ∧
              (Sync m l d s).1.heap lb =
                (m.edgeHop s.gce
                  { runtimeInfo := d
                    Name := l.namer.LoadBalancer d.Name
                    cloud := l.cloud
                    namer := l.namer
                    mcrt := l.mcrt
                    recorder := l.recorderProducer.Recorder item.Namespace
                    Rest := 0 }).lb))) ∧
    (l.namer.LoadBalancer (l.namer.LoadBalancer d.Name) = l.namer.LoadBalancer d.Name →
      ∀ lb, s.snapshotter (l.namer.LoadBalancer d.Name) = some lb →
        ∃ err, (Sync m l d s).2 = Outcome.returned err ∧
          (Sync m l d s).1.snapshotter (l.namer.LoadBalancer d.Name) = some lb ∧
          (Sync m l d s).1.next = s.next) := by
  constructor
  · intro hne
    exact (Sync_ends m l d s).2 (Or.inl hne)
  · intro hid lb hs
    have hs2 : s.snapshotter (l.namer.LoadBalancer (l.namer.LoadBalancer d.Name)) = some lb := by
      rw [hid]; exact hs
    obtain ⟨s1, _, _, _, h4, _, h6⟩ := Sync_of_found m l d s lb hs2
    refine ⟨(s1.edgeHop m lb).2, by rw [h6], ?_, ?_⟩
    · rw [h6]; simp [State.Add, Snapshotter.Add]
    · rw [h6]; simp [State.Add, State.edgeHop, h4]

/-- Witness of C17, amended: on the empty pool a descriptor with an ingress is
synced into a newly built entity; on a pool tracking its name a descriptor
without ingress is synced without a fault. -/
theorem Sync_index_in_range_witness :
    (∃ lb err, (Sync okMethods scrubPool riA emptyState).2 = Outcome.returned err ∧
      (Sync okMethods scrubPool riA emptyState).1.snapshotter
        (scrubPool.namer.LoadBalancer riA.Name) = some lb ∧
      ((emptyState.snapshotter (scrubPool.namer.LoadBalancer
            (scrubPool.namer.LoadBalancer riA.Name)) = some lb ∧
          (Sync okMethods scrubPool riA emptyState).1.next = emptyState.next) ∨
        (emptyState.snapshotter (scrubPool.namer.LoadBalancer
            (scrubPool.namer.LoadBalancer riA.Name)) = none ∧
          lb = emptyState.next ∧
          (Sync okMethods scrubPool riA emptyState).1.next = emptyState.next + 1 ∧
          ∃ item, riA.IngressList.Items[0]? = some item ∧
            (Sync okMethods scrubPool riA emptyState).1.heap lb =
              (okMethods.edgeHop emptyState.gce
                { runtimeInfo := riA
                  Name := scrubPool.namer.LoadBalancer riA.Name
                  cloud := scrubPool.cloud
                  namer := scrubPool.namer
                  mcrt := scrubPool.mcrt
                  recorder := scrubPool.recorderProducer.Recorder item.Namespace
                  Rest := 0 }).lb))) ∧
    (∃ err, (Sync okMethods scrubPool riNoIngress trackedState).2 = Outcome.returned err ∧
      (Sync okMethods scrubPool riNoIngress trackedState).1.snapshotter
        (scrubPool.namer.LoadBalancer riNoIngress.Name) = some 0 ∧
      (Sync okMethods scrubPool riNoIngress trackedState).1.next = trackedState.next) :=
  ⟨(Sync_index_in_range okMethods scrubPool riA emptyState).1 (by decide),
   (Sync_index_in_range okMethods scrubPool riNoIngress trackedState).2 (by decide) 0
    (by decide)⟩

end Loadbalancers
